import Mathlib

/-!
Verification development for BOLT's `DWARFRewriter.cpp`
(`src/bolt/src/DWARFRewriter.cpp`).

The definitions below are a shallow embedding of the rewrite-relevant state
and operations of the DWARF rewriter: the byte-patch lists produced for
`.debug_info`, the pending-ranges conversion state machine for abbreviation
declarations shared by several subprogram DIEs, the ranges-section writer
cache, the location-list two-pass offset resolution, the `.gdb_index`
regeneration, and the DWO/DWP per-unit skip and duplicate-signature logic.

Machine integers are modelled as `Nat`; width truncation happens at byte
serialization time (`leBytes` keeps only `w` bytes, exactly as the
little-endian `write32le`/`write64le` helpers and the fixed-width patch
encoders do).  Unsigned subtractions in the source are modelled with `Nat`
subtraction; the theorems' hypotheses keep the inputs in the regime where
the C++ unsigned arithmetic does not wrap, mirroring the well-formedness
assumptions the source itself makes (asserts and format checks).
-/

/-- Modelled from the spec: the Byte Patch List supports fixed-width
little-endian integers (`SimpleBinaryPatcher::addLE32Patch` /
`addLE64Patch` live in `DebugData.cpp`, which is not under `src/`).
`leBytes w v` is the `w`-byte little-endian serialization of `v`;
higher bytes of `v` are truncated, as in `write32le`/`write64le`. -/
def leBytes : Nat → Nat → List Nat
  | 0, _ => []
  | w + 1, v => v % 256 :: leBytes w (v / 256)

/-- Modelled from the spec: the Byte Patch List supports variable-width
(ULEB-like) values with an explicit byte count
(`SimpleBinaryPatcher::addUDataPatch` lives in `DebugData.cpp`, not under
`src/`).  `ulebBytes n v` is the `n`-byte ULEB128 serialization of `v`
padded to exactly `n` bytes (continuation bit set on all but the last). -/
def ulebBytes : Nat → Nat → List Nat
  | 0, _ => []
  | 1, v => [v % 128]
  | n + 2, v => (v % 128 + 128) :: ulebBytes (n + 1) (v / 128)

/-- One intent-to-overwrite record of a section's Byte Patch List:
the raw bytes `bytes` replace the section bytes starting at `offset`. -/
structure Patch where
  offset : Nat
  bytes : List Nat
  deriving DecidableEq, Repr

/-- Writes `bytes` over `data` starting at index `off` (out-of-range
writes are dropped, the section never grows). -/
def writeBytesAt (data : List Nat) (off : Nat) (bytes : List Nat) : List Nat :=
  match bytes with
  | [] => data
  | b :: bs => writeBytesAt (data.set off b) (off + 1) bs

/-- Modelled from the spec: applying the finalized Byte Patch List to a
section's raw bytes in one pass (`BinaryPatcher::patchBinary` lives in
`DebugData.cpp`, not under `src/`; `updateDebugData` in
`DWARFRewriter.cpp` invokes it on a copy of the original bytes). -/
def applyPatches (data : List Nat) (ps : List Patch) : List Nat :=
  ps.foldl (fun d p => writeBytesAt d p.offset p.bytes) data

/-- `p.covers i` holds when patch `p` overwrites byte index `i`. -/
def Patch.covers (p : Patch) (i : Nat) : Prop :=
  p.offset ≤ i ∧ i < p.offset + p.bytes.length

instance (p : Patch) (i : Nat) : Decidable (p.covers i) := by
  unfold Patch.covers; infer_instance

/-- An address range `[lowPC, highPC)` in the output address space
(`DebugAddressRange` from `DebugData.h`; default-constructed value is
`(0, 0)`). -/
structure DebugAddressRange where
  lowPC : Nat
  highPC : Nat
  deriving DecidableEq, Repr

/-- The subset of DWARF forms the rewriter manipulates. -/
inductive Form where
  | addr
  | data4
  | data8
  | gnuAddrIndex
  | secOffset
  | udata
  | indirect
  deriving DecidableEq, Repr

/-- `isHighPcFormEightBytes` from `DWARFRewriter.cpp` (lines 161-163):
`DW_FORM_addr` and `DW_FORM_data8` are the 8-byte high-pc forms. -/
def isHighPcFormEightBytes (f : Form) : Bool :=
  f = Form.addr || f = Form.data8

/-- The attributes whose encodings the rewriter swaps. -/
inductive Attr where
  | lowPC
  | highPC
  | ranges
  | gnuRangesBase
  deriving DecidableEq, Repr

/-- Numeric code of `dwarf::DW_FORM_addr` (0x01), written by
`convertToRanges` as the payload of the `DW_FORM_indirect` trick. -/
def formAddrCode : Nat := 1

/-- Numeric code of `dwarf::DW_FORM_udata` (0x0f). -/
def formUdataCode : Nat := 15

/-- An abbreviation declaration as the rewriter sees it: identity
(`declId`, standing for the declaration pointer), which range-bearing
attributes it declares, and the forms of its low-pc/high-pc pair. -/
structure AbbrevDecl where
  declId : Nat
  hasRangesAttr : Bool
  hasLowPC : Bool
  hasHighPC : Bool
  lowForm : Form
  highForm : Form
  deriving DecidableEq, Repr

/-- One attribute substitution request recorded by
`DebugAbbrevWriter::addAttributePatch` (the abbreviation writer itself
lives in `DebugData.cpp`; the rewriter only emits these requests). -/
structure AbbrevPatch where
  declId : Nat
  fromAttr : Attr
  toAttr : Attr
  newForm : Form
  deriving DecidableEq, Repr

/-- The per-DIE data the rewriter reads: the shared abbreviation
declaration, the input byte offsets of the low-pc/high-pc (and ranges)
attribute values, the raw index operands for `DW_FORM_GNU_addr_index`,
and the owning split-unit id, when any. -/
structure DieInfo where
  dieOffset : Nat
  decl : AbbrevDecl
  lowPCOffset : Nat
  highPCOffset : Nat
  rangesAttrOffset : Nat
  lowIndexVal : Nat
  highIndexVal : Nat
  dwoId : Option Nat
  deriving DecidableEq, Repr

/-- `|a - b|` on `Nat`, modelling `std::abs(int(a - b))`. -/
def natAbsDiff (a b : Nat) : Nat := max a b - min a b

/-- `NumBytesToFill` from `DWARFRewriter::convertToRanges`
(lines 1521-1530): 12 for the 8-byte high-pc forms, 8 for
`DW_FORM_data4`; any other high-pc form is `llvm_unreachable`. -/
def numBytesToFill : Form → Option Nat
  | Form.addr => some 12
  | Form.data8 => some 12
  | Form.data4 => some 8
  | _ => none

/-- The ranges-section writer's observable state: the next free section
offset and the list of (offset, range-list) entries stored so far.
Modelled from the spec: `DebugRangesSectionWriter` lives in
`DebugData.cpp`, which is not under `src/`; per §4.3 a list is serialized
as (low, high) 8+8-byte pairs terminated by a zero pair, so a list of
`n` ranges occupies `16 * (n + 1)` bytes. -/
structure RangesWriter where
  sectionOffset : Nat
  stored : List (Nat × List DebugAddressRange)
  deriving DecidableEq, Repr

/-- Modelled from the spec: `get_empty_ranges_offset` returns the
reserved, shared "no ranges" offset at the start of the section. -/
def emptyRangesOffset : Nat := 0

/-- Modelled from the spec: the writer starts with the reserved empty
list (one 16-byte zero-pair terminator) already emitted at offset 0. -/
def initRangesWriter : RangesWriter := ⟨16, []⟩

/-- Modelled from the spec: uncached `add_ranges` appends the list and
returns a new offset (`DebugRangesSectionWriter::addRanges` in
`DebugData.cpp`, not under `src/`). -/
def addRanges (rw : RangesWriter) (rs : List DebugAddressRange) :
    Nat × RangesWriter :=
  (rw.sectionOffset,
   { sectionOffset := rw.sectionOffset + 16 * (rs.length + 1),
     stored := rw.stored ++ [(rw.sectionOffset, rs)] })

/-- The content-addressed cache used within one cache scope:
(range-list, offset) pairs, newest first. -/
abbrev RangesCache : Type := List (List DebugAddressRange × Nat)

/-- First-match lookup in a ranges cache. -/
def cacheLookup (cache : RangesCache) (rs : List DebugAddressRange) :
    Option Nat :=
  match cache with
  | [] => none
  | (rs', off) :: rest => if rs' = rs then some off else cacheLookup rest rs

/-- Modelled from the spec: cached `add_ranges` — an empty list maps to
the reserved empty-ranges offset without touching the section; an
equivalent list already added within the current cache scope returns the
previous offset (no duplicate storage); otherwise the list is appended
at a new offset, which is recorded in the cache
(`DebugRangesSectionWriter::addRanges(Ranges, CachedRanges)` in
`DebugData.cpp`, not under `src/`). -/
def addRangesCached (rw : RangesWriter) (cache : RangesCache)
    (rs : List DebugAddressRange) : Nat × RangesWriter × RangesCache :=
  if rs.isEmpty then (emptyRangesOffset, rw, cache)
  else
    match cacheLookup cache rs with
    | some off => (off, rw, cache)
    | none =>
      let ow := addRanges rw rs
      (ow.1, ow.2, (rs, ow.1) :: cache)

/-- The pending-ranges map `PendingRanges`: per abbreviation declaration,
the (DIE, single retained range) pairs deferred under it. -/
abbrev PendingMap : Type := List (AbbrevDecl × List (DieInfo × DebugAddressRange))

/-- Lookup of a declaration's pending entries. -/
def pendingLookup (m : PendingMap) (k : AbbrevDecl) :
    Option (List (DieInfo × DebugAddressRange)) :=
  match m with
  | [] => none
  | (k', v) :: rest => if k' = k then some v else pendingLookup rest k

/-- `PendingRanges[Abbrev].emplace_back(...)`: append an entry under the
declaration's key, creating the binding if absent. -/
def pendingAdd (m : PendingMap) (k : AbbrevDecl)
    (e : DieInfo × DebugAddressRange) : PendingMap :=
  match m with
  | [] => [(k, [e])]
  | (k', v) :: rest =>
    if k' = k then (k', v ++ [e]) :: rest else (k', v) :: pendingAdd rest k e

/-- `PendingRanges.erase(I)`: drop the declaration's binding. -/
def pendingErase (m : PendingMap) (k : AbbrevDecl) : PendingMap :=
  match m with
  | [] => []
  | (k', v) :: rest =>
    if k' = k then rest else (k', v) :: pendingErase rest k

/-- A declaration's pending entries (empty when it has no binding). -/
def entriesOf (m : PendingMap) (k : AbbrevDecl) :
    List (DieInfo × DebugAddressRange) :=
  (pendingLookup m k).getD []

/-- The rewriter's shared mutable state, as touched by the subprogram
low/high-pc path: the set of already-converted abbreviation declarations
(`ConvertedRangesAbbrevs`), the pending-ranges map (`PendingRanges`),
the ranges-section writer, the debug-info Byte Patch List (and the
per-split-unit patch lists, tagged by DWO id), the abbreviation
substitution requests, the split-unit address table
(`DebugAddrWriter`, newest write first), and the active patcher's
ranges base (`SimpleBinaryPatcher::getRangeBase`, 0 for the top-level
`.debug_info` patcher). -/
structure RewriterState where
  converted : List AbbrevDecl
  pending : PendingMap
  ranges : RangesWriter
  infoPatches : List Patch
  dwoPatches : List (Nat × Patch)
  abbrevPatches : List AbbrevPatch
  addrWriter : List ((Nat × Nat) × Nat)
  patcherRangeBase : Nat
  deriving DecidableEq, Repr

/-- Modelled from the spec: `add_indexed_address` registers `address` at
`index` in the split unit's private index space, last writer wins
(`DebugAddrWriter::addIndexAddress` lives in `DebugData.cpp`, not under
`src/`).  The newest write is consed to the front. -/
def addIndexAddress (aw : List ((Nat × Nat) × Nat))
    (address index dwoId : Nat) : List ((Nat × Nat) × Nat) :=
  ((dwoId, index), address) :: aw

/-- Modelled from the spec: `get_index_for_address` is the reverse
lookup used when an existing index must be reused
(`DebugAddrWriter::getIndexFromAddress`, `DebugData.cpp`, not under
`src/`). -/
def getIndexFromAddress (aw : List ((Nat × Nat) × Nat))
    (address dwoId : Nat) : Option Nat :=
  match aw with
  | [] => none
  | ((d, i), a) :: rest =>
    if d = dwoId ∧ a = address then some i
    else getIndexFromAddress rest address dwoId

/-- The abbreviation-side half of a low/high-pc → ranges conversion:
`DWARFRewriter::convertToRanges(Unit, Abbrev, AbbrevWriter, RangesBase)`
(lines 1484-1511).  With a ranges base the low-pc attribute becomes
`DW_AT_GNU_ranges_base` behind `DW_FORM_indirect`; otherwise, when the
high-pc form is 8 bytes wide (and low-pc is not an address index),
low-pc is re-encoded behind `DW_FORM_indirect` to absorb the width
change; the high-pc attribute always becomes `DW_AT_ranges` with
`DW_FORM_sec_offset`. -/
def convertAbbrevPatches (aps : List AbbrevPatch) (decl : AbbrevDecl)
    (rangesBase : Option Nat) : List AbbrevPatch :=
  let aps1 :=
    if rangesBase.isSome then
      aps ++ [⟨decl.declId, Attr.lowPC, Attr.gnuRangesBase, Form.indirect⟩]
    else if decl.lowForm ≠ Form.gnuAddrIndex ∧
        isHighPcFormEightBytes decl.highForm then
      aps ++ [⟨decl.declId, Attr.lowPC, Attr.lowPC, Form.indirect⟩]
    else aps
  aps1 ++ [⟨decl.declId, Attr.highPC, Attr.ranges, Form.secOffset⟩]

/-- The DIE-side patches of a low/high-pc → ranges conversion:
`DWARFRewriter::convertToRanges(DIE, RangesSectionOffset, Patcher,
RangesBase)` (lines 1513-1558).  Returns the patches appended to the
patcher, or `none` on an unsupported high-pc form (`llvm_unreachable`).
For `DW_FORM_GNU_addr_index` low-pc the whole first field becomes one
padded ULEB 0 and the final section offset is relative to the patcher's
ranges base; otherwise the 12- or 16-byte window of the two fields is
filled with an indirect-form trick (or a plain zero low-pc for the
8-byte window) and the last 4 bytes receive the ranges offset. -/
def convertToRangesDiePatchesCore (die : DieInfo) (nb : Nat)
    (rangesSectionOffset : Nat) (rangesBase : Option Nat)
    (patcherRangeBase : Nat) : List Patch :=
  if die.decl.lowForm = Form.gnuAddrIndex then
    [⟨die.lowPCOffset,
      ulebBytes (natAbsDiff die.highPCOffset die.lowPCOffset + nb - 8) 0⟩,
     ⟨die.highPCOffset + nb - 8,
      leBytes 4 (rangesSectionOffset - patcherRangeBase)⟩]
  else
    match rangesBase with
    | some rb =>
      [⟨die.lowPCOffset, ulebBytes 1 formUdataCode⟩,
       ⟨die.lowPCOffset + 1, ulebBytes (nb - 1) rb⟩,
       ⟨die.highPCOffset + nb - 8, leBytes 4 rangesSectionOffset⟩]
    | none =>
      if nb = 12 then
        [⟨die.lowPCOffset, ulebBytes 4 formAddrCode⟩,
         ⟨die.lowPCOffset + 4, leBytes 8 0⟩,
         ⟨die.highPCOffset + nb - 8, leBytes 4 rangesSectionOffset⟩]
      else
        [⟨die.lowPCOffset, leBytes 8 0⟩,
         ⟨die.highPCOffset + nb - 8, leBytes 4 rangesSectionOffset⟩]

/-- The same patch emission, with the unsupported high-pc forms
(`llvm_unreachable`) mapped to `none`. -/
def convertToRangesDiePatches (die : DieInfo) (rangesSectionOffset : Nat)
    (rangesBase : Option Nat) (patcherRangeBase : Nat) :
    Option (List Patch) :=
  match numBytesToFill die.decl.highForm with
  | none => none
  | some nb =>
    some (convertToRangesDiePatchesCore die nb rangesSectionOffset
      rangesBase patcherRangeBase)

/-- `DWARFRewriter::convertToRanges(DIE, Ranges, DebugInfoPatcher)`
(lines 1301-1312): an empty list maps to the reserved empty-ranges
offset, otherwise the list is appended to the ranges writer; the DIE is
then patched to reference the resulting offset. -/
def convertToRangesList (st : RewriterState) (die : DieInfo)
    (rs : List DebugAddressRange) : Option RewriterState :=
  let ow := if rs.isEmpty then (emptyRangesOffset, st.ranges)
            else addRanges st.ranges rs
  match convertToRangesDiePatches die ow.1 none st.patcherRangeBase with
  | none => none
  | some ps =>
    some { st with ranges := ow.2, infoPatches := st.infoPatches ++ ps }

/-- Flushing the pending entries of a declaration being converted: each
deferred DIE is patched to reference its single retained range through
the ranges writer (the loop body of `convertPending`, lines 1323-1329). -/
def flushConvertEntries (st : RewriterState)
    (es : List (DieInfo × DebugAddressRange)) : Option RewriterState :=
  match es with
  | [] => some st
  | e :: rest =>
    match convertToRangesList st e.1 [e.2] with
    | none => none
    | some st1 => flushConvertEntries st1 rest

/-- `DWARFRewriter::convertPending` (lines 1314-1332): a no-op when the
declaration is already converted; otherwise rewrite the declaration's
attribute pair, flush every DIE deferred under it, erase its pending
binding and mark it converted. -/
def convertPendingSt (st : RewriterState) (decl : AbbrevDecl) :
    Option RewriterState :=
  if decl ∈ st.converted then some st
  else
    let st1 := { st with
      abbrevPatches := convertAbbrevPatches st.abbrevPatches decl none }
    match flushConvertEntries st1 (entriesOf st1.pending decl) with
    | none => none
    | some st2 =>
      some { st2 with
        pending := pendingErase st2.pending decl,
        converted := decl :: st2.converted }

/-- `DWARFRewriter::addToPendingRanges` (lines 1334-1362): for an
address-indexed low-pc, register every range's addresses at the DIE's
raw low/high indices in the split unit's address table (the high
address only when the high-pc form is not of constant class); then
record (DIE, first range) under the declaration.  Reading the front of
an empty range list is the undefined behavior the caller must rule out,
modelled as `none`. -/
def addToPendingRangesSt (st : RewriterState) (die : DieInfo)
    (fr : List DebugAddressRange) : Option RewriterState :=
  match fr with
  | [] => none
  | r :: _ =>
    if die.decl.lowForm = Form.gnuAddrIndex then
      match die.dwoId with
      | none => none
      | some d =>
        let aw := fr.foldl (fun aw a =>
          let aw1 := addIndexAddress aw a.lowPC die.lowIndexVal d
          if die.decl.highForm = Form.data4 ∨ die.decl.highForm = Form.data8
          then aw1
          else addIndexAddress aw1 a.highPC die.highIndexVal d) st.addrWriter
        some { st with addrWriter := aw,
                       pending := pendingAdd st.pending die.decl (die, r) }
    else
      some { st with pending := pendingAdd st.pending die.decl (die, r) }

/-- The deferred-conversion branch of the subprogram case of
`updateUnitDebugInfo` (lines 368-392): with more than one output range
the declaration is converted (with all its pending DIEs) and this DIE is
patched to ranges; with the declaration already converted this DIE is
patched to ranges directly; otherwise the DIE is deferred as pending,
substituting a single default `(0, 0)` range when the function's output
ranges are empty. -/
def processSubprogramLowHigh (st : RewriterState) (die : DieInfo)
    (functionRanges : List DebugAddressRange) : Option RewriterState :=
  if 1 < functionRanges.length then
    match convertPendingSt st die.decl with
    | none => none
    | some st1 => convertToRangesList st1 die functionRanges
  else if die.decl ∈ st.converted then
    convertToRangesList st die functionRanges
  else
    addToPendingRangesSt st die
      (if functionRanges.isEmpty then [⟨0, 0⟩] else functionRanges)

/-- `DWARFRewriter::patchLowHigh` (lines 1457-1482): patch the DIE's
low-pc and high-pc fields in place with one range.  For an
address-indexed low-pc, the field receives the range's low address's
table index as a padded ULEB in the owning split unit's patcher;
otherwise low-pc receives the low address as 8 little-endian bytes.
High-pc receives `highPC - lowPC`, 8 bytes wide for the 8-byte high-pc
forms and 4 bytes otherwise. -/
def patchLowHighSt (st : RewriterState) (die : DieInfo)
    (r : DebugAddressRange) : Option RewriterState :=
  let highBytes :=
    if isHighPcFormEightBytes die.decl.highForm
    then leBytes 8 (r.highPC - r.lowPC)
    else leBytes 4 (r.highPC - r.lowPC)
  if die.decl.lowForm = Form.gnuAddrIndex then
    match die.dwoId with
    | none => none
    | some d =>
      match getIndexFromAddress st.addrWriter r.lowPC d with
      | none => none
      | some idx =>
        some { st with dwoPatches := st.dwoPatches ++
          [(d, ⟨die.lowPCOffset,
                ulebBytes (natAbsDiff die.highPCOffset die.lowPCOffset) idx⟩),
           (d, ⟨die.highPCOffset, highBytes⟩)] }
  else
    some { st with infoPatches := st.infoPatches ++
      [⟨die.lowPCOffset, leBytes 8 r.lowPC⟩,
       ⟨die.highPCOffset, highBytes⟩] }

/-- The inner loop of `flushPendingRanges`: patch each deferred
(DIE, range) pair of one declaration in place. -/
def flushEntries (st : RewriterState)
    (es : List (DieInfo × DebugAddressRange)) : Option RewriterState :=
  match es with
  | [] => some st
  | e :: rest =>
    match patchLowHighSt st e.1 e.2 with
    | none => none
    | some st1 => flushEntries st1 rest

/-- The outer loop of `flushPendingRanges` over the pending map. -/
def flushPendingList (st : RewriterState) (m : PendingMap) :
    Option RewriterState :=
  match m with
  | [] => some st
  | kv :: rest =>
    match flushEntries st kv.2 with
    | none => none
    | some st1 => flushPendingList st1 rest

/-- `DWARFRewriter::flushPendingRanges` (lines 1414-1423): at
end-of-run, every remaining Pending Range Entry is flushed with
`patchLowHigh` and the pending map is cleared. -/
def flushPendingRangesSt (st : RewriterState) : Option RewriterState :=
  (flushPendingList st st.pending).map (fun st1 => { st1 with pending := [] })

/-- `DWARFRewriter::updateDWARFObjectAddressRanges` at its
`RangesBase = None` instantiation (lines 596-675), the one used for all
non-skeleton DIEs: if the declaration already has a `DW_AT_ranges`
attribute its value is patched to the offset (relative to the patcher's
ranges base); otherwise, when the declaration has a back-to-back
low-pc/high-pc pair, the pair is converted to a ranges attribute (both
the abbreviation side and the DIE side); otherwise a diagnostic is
printed and the DIE is left unmodified. -/
def updateObjectRanges (st : RewriterState) (die : DieInfo) (off : Nat) :
    Option RewriterState :=
  if die.decl.hasRangesAttr then
    some { st with infoPatches := st.infoPatches ++
      [⟨die.rangesAttrOffset, leBytes 4 (off - st.patcherRangeBase)⟩] }
  else if die.decl.hasLowPC && die.decl.hasHighPC then
    match convertToRangesDiePatches die off none st.patcherRangeBase with
    | none => none
    | some ps =>
      some { st with
        abbrevPatches := convertAbbrevPatches st.abbrevPatches die.decl none,
        infoPatches := st.infoPatches ++ ps }
  else
    some st

/-- The lexical-block / inlined-subroutine / try-block / catch-block
case of `updateUnitDebugInfo` (lines 396-421): the ranges-section offset
defaults to the reserved empty-ranges offset; only when the DIE's input
ranges are non-empty and a containing function is found are they
translated through that function and added through the cached
`add_ranges` path; the DIE's range attribute is then always rewritten
through `updateDWARFObjectAddressRanges` (ranges encoding — these tags
never enter the pending low/high-pc machinery). -/
def processBlockTag (st : RewriterState) (cache : RangesCache)
    (die : DieInfo) (inputRanges : Option (List DebugAddressRange))
    (containingFunction :
      Nat → Option (List DebugAddressRange → List DebugAddressRange)) :
    Option (RewriterState × RangesCache) :=
  let tr :=
    match inputRanges with
    | some (r :: rs) =>
      match containingFunction r.lowPC with
      | some translate => addRangesCached st.ranges cache (translate (r :: rs))
      | none => (emptyRangesOffset, st.ranges, cache)
    | _ => (emptyRangesOffset, st.ranges, cache)
  match updateObjectRanges { st with ranges := tr.2.1 } die tr.1 with
  | none => none
  | some st1 => some (st1, tr.2.2)

/-- One deferred location-list info patch
(`LocListDebugInfoPatchType`): the `.debug_info` byte offset to patch,
the owning unit's index, and the entry's unit-local offset recorded
during the walk. -/
structure LocPatchRec where
  debugInfoOffset : Nat
  cuIndex : Nat
  cuWriterOffset : Nat
  deriving DecidableEq, Repr

/-- One entry of `LocListWritersByCU`: the unit's index (key), whether
the writer is the split-unit `DebugLoclistWriter` variant (skipped by
the final concatenation), and its finalized buffer bytes. -/
structure LocWriterEntry where
  cuIndex : Nat
  isLoclistWriter : Bool
  buffer : List Nat
  deriving DecidableEq, Repr

/-- First-match association lookup with a default, modelling
`SectionOffsetByCU[Key]` (a missing key yields a default-inserted 0). -/
def lookupD (m : List (Nat × Nat)) (k : Nat) (dflt : Nat) : Nat :=
  match m with
  | [] => dflt
  | (k', v) :: rest => if k' = k then v else lookupD rest k dflt

/-- The concatenation loop of `makeFinalLocListsSection`
(lines 1371-1392): starting from the 16-byte reserved empty list at
offset 0, append each non-split writer's finalized buffer and record the
unit's base offset in `SectionOffsetByCU`. -/
def buildLocSection (ws : List LocWriterEntry) (buf : List Nat)
    (off : Nat) (m : List (Nat × Nat)) : List Nat × List (Nat × Nat) :=
  match ws with
  | [] => (buf, m)
  | w :: rest =>
    if w.isLoclistWriter then buildLocSection rest buf off m
    else buildLocSection rest (buf ++ w.buffer) (off + w.buffer.length)
      (m ++ [(w.cuIndex, off)])

/-- `DWARFRewriter::makeFinalLocListsSection` (lines 1364-1412),
restricted to the top-level `.debug_info` patches: the final section is
the 16 zero bytes of the reserved empty list followed by every non-split
unit's finalized buffer in iteration order; every deferred info patch
then receives `SectionOffsetByCU[CUIndex] + CUWriterOffset` as a 4-byte
little-endian patch (the split-unit loop resolves its patches with the
same map into the per-split-unit patchers). -/
def makeFinalLocListsSection (ws : List LocWriterEntry)
    (patches : List LocPatchRec) : List Nat × List Patch :=
  let bm := buildLocSection ws (List.replicate 16 0) 16 []
  (bm.1, patches.map (fun p =>
    ⟨p.debugInfoOffset,
     leBytes 4 (lookupD bm.2 p.cuIndex 0 + p.cuWriterOffset)⟩))

/-- The size, in finalized bytes, contributed by the non-split writers
of a list (the buffers the final location-list section concatenates). -/
def nonSplitLocSize : List LocWriterEntry → Nat
  | [] => 0
  | w :: rest =>
    (if w.isLoclistWriter then 0 else w.buffer.length) + nonSplitLocSize rest

/-- `read32le` over a byte list (missing bytes read as 0). -/
def read32le (c : List Nat) (off : Nat) : Nat :=
  c.getD off 0 + 256 * (c.getD (off + 1) 0 + 256 *
    (c.getD (off + 2) 0 + 256 * c.getD (off + 3) 0))

/-- `read64le` over a byte list (missing bytes read as 0). -/
def read64le (c : List Nat) (off : Nat) : Nat :=
  read32le c off + 4294967296 * read32le c (off + 4)

/-- The inputs `updateGdbIndexSection` consumes: the original
`.gdb_index` bytes, the compile units' input offsets in index order
(`BC.DwCtx->getUnitAtIndex`), and the per-unit retained output ranges
(`ARangesSectionWriter->getCUAddressRanges()`, keyed by unit input
offset, in its iteration order). -/
structure GdbIndexInput where
  contents : List Nat
  cuOffsets : List Nat
  cuRanges : List (Nat × List DebugAddressRange)
  deriving Repr

/-- The verification loop over the CU list (lines 1229-1238): each
16-byte entry's 8-byte offset must equal the corresponding unit's
offset. -/
def gdbCuListMatches (c : List Nat) (cuOffsets : List Nat) : Bool :=
  (List.range cuOffsets.length).all
    (fun i => read64le c (24 + 16 * i) = cuOffsets.getD i 0)

/-- `OffsetToIndexMap[Offset]` (line 1278): the unit's index position
for a CU input offset; a key the map never received reads as the
default-inserted 0. -/
def offsetToIndex (cuOffsets : List Nat) (off : Nat) : Nat :=
  match cuOffsets.findIdx? (fun x => x = off) with
  | some i => i
  | none => 0

/-- The regenerated address table (lines 1276-1286): one 20-byte entry
(8-byte low, 8-byte high, 4-byte CU index) per retained range per
compile unit, in the retained map's iteration order. -/
def gdbAddrTableBytes (cuRanges : List (Nat × List DebugAddressRange))
    (cuOffsets : List Nat) : List Nat :=
  cuRanges.foldr (fun p acc =>
    (p.2.foldr (fun r acc2 =>
      leBytes 8 r.lowPC ++ leBytes 8 r.highPC ++
        leBytes 4 (offsetToIndex cuOffsets p.1) ++ acc2) []) ++ acc) []

/-- The size of the new address table (lines 1246-1250):
20 bytes per retained range. -/
def gdbNewAddressTableSize (cuRanges : List (Nat × List DebugAddressRange)) :
    Nat :=
  cuRanges.foldr (fun p acc => 20 * p.2.length + acc) 0

/-- `DWARFRewriter::updateGdbIndexSection` (lines 1193-1299): parse and
check the 24-byte header and the CU list (`exit(1)`, modelled as `none`,
on an unsupported version, a CU count mismatch or a CU offset mismatch),
then emit: the header with the symbol-table and constant-pool offsets
shifted by the address-table size delta, the CU list and types CU list
copied verbatim, the regenerated address table, and the original bytes
from the symbol table onwards copied verbatim. -/
def updateGdbIndexSection (inp : GdbIndexInput) : Option (List Nat) :=
  let c := inp.contents
  let version := read32le c 0
  if version ≠ 7 ∧ version ≠ 8 then none
  else
    let cuListOffset := read32le c 4
    let cuTypesOffset := read32le c 8
    let addressTableOffset := read32le c 12
    let symbolTableOffset := read32le c 16
    let constantPoolOffset := read32le c 20
    let numCUs := inp.cuOffsets.length
    if cuTypesOffset - cuListOffset ≠ numCUs * 16 then none
    else if ¬ gdbCuListMatches c inp.cuOffsets then none
    else
      let oldAddressTableSize := symbolTableOffset - addressTableOffset
      let newAddressTableSize := gdbNewAddressTableSize inp.cuRanges
      some (leBytes 4 version ++ leBytes 4 cuListOffset ++
        leBytes 4 cuTypesOffset ++ leBytes 4 addressTableOffset ++
        leBytes 4 (symbolTableOffset + newAddressTableSize -
          oldAddressTableSize) ++
        leBytes 4 (constantPoolOffset + newAddressTableSize -
          oldAddressTableSize) ++
        (c.drop 24).take (addressTableOffset - cuListOffset) ++
        gdbAddrTableBytes inp.cuRanges inp.cuOffsets ++
        c.drop (24 + numCUs * 16 + (symbolTableOffset - cuTypesOffset)))

/-- A compile unit as the DWO/DWP emission passes see it: its optional
split-unit id (`CU->getDWOId()`), and whether the split unit is in the
loaded split-unit set (`BC.getDWOCU(*DWOId)` found). -/
structure CUInfo where
  dwoId : Option Nat
  loaded : Bool
  deriving DecidableEq, Repr

/-- The split-unit signatures of the units the emission loops actually
process (a unit contributes only when it has a DWO id and its split unit
loaded). -/
def loadedIds (cus : List CUInfo) : List Nat :=
  cus.filterMap (fun cu => if cu.loaded then cu.dwoId else none)

/-- Observable outcome of `writeDWP`: the signatures inserted into the
package index, the signatures named in `BOLT-ERROR` diagnostics, whether
the unit index was written (`writeIndex`), whether the output file was
kept (`Out->keep()`), and whether the process was terminated by an
`exit` call. -/
structure DWPResult where
  indexEntries : List Nat
  diagnostics : List Nat
  indexWritten : Bool
  outputKept : Bool
  processExited : Bool
  deriving DecidableEq, Repr

/-- The per-unit loop of `DWARFRewriter::writeDWP` (lines 1046-1135):
units without a DWO id, and units whose split unit failed to load, are
skipped silently; a duplicate signature fails the index insertion,
prints a `BOLT-ERROR` naming the duplicate and returns from `writeDWP`
early — before `writeIndex`, `Streamer->Finish()` and `Out->keep()`,
and without calling `exit`. -/
def writeDWPLoop (cus : List CUInfo) (acc : List Nat) : DWPResult :=
  match cus with
  | [] => { indexEntries := acc, diagnostics := [], indexWritten := true,
            outputKept := true, processExited := false }
  | cu :: rest =>
    match cu.dwoId with
    | none => writeDWPLoop rest acc
    | some d =>
      if cu.loaded = false then writeDWPLoop rest acc
      else if d ∈ acc then
        { indexEntries := acc, diagnostics := [d], indexWritten := false,
          outputKept := false, processExited := false }
      else writeDWPLoop rest (acc ++ [d])

/-- `DWARFRewriter::writeDWP` (lines 998-1136), observed through its
index bookkeeping and termination behavior. -/
def writeDWP (cus : List CUInfo) : DWPResult :=
  writeDWPLoop cus []

/-- Observable outcome of `writeDWOFiles`: the split-unit ids for which
an output `.dwo` file was created and kept, and the ids named in skip
diagnostics. -/
structure DWOFilesResult where
  files : List Nat
  diagnostics : List Nat
  deriving DecidableEq, Repr

/-- `DWARFRewriter::writeDWOFiles` (lines 1138-1191): units without a
DWO id, and units whose split unit failed to load, are skipped silently
(no output file is opened, no diagnostic is printed); every other unit
gets one output file. -/
def writeDWOFiles (cus : List CUInfo) : DWOFilesResult :=
  match cus with
  | [] => ⟨[], []⟩
  | cu :: rest =>
    let r := writeDWOFiles rest
    match cu.dwoId with
    | none => r
    | some d => if cu.loaded then ⟨d :: r.files, r.diagnostics⟩ else r

/-- Observable outcome of `processUnitDIE` (lines 220-254) for one unit:
whether the split unit's DIE stream was rewritten (patches produced in
its split-unit patcher), whether the skeleton unit itself was rewritten
(`updateUnitDebugInfo(CUIndex, *Unit, ...)` runs unconditionally), and
the diagnostics printed by the split-unit skip. -/
structure UnitProcessResult where
  splitProcessed : Bool
  skeletonProcessed : Bool
  diagnostics : List Nat
  deriving DecidableEq, Repr

/-- The skip structure of `processUnitDIE`: a unit whose split unit is
not loaded has only its split-unit rewrite skipped — silently — while
the skeleton unit is still processed. -/
def processUnitDriver (cu : CUInfo) : UnitProcessResult :=
  match cu.dwoId with
  | none => ⟨false, true, []⟩
  | some _ => if cu.loaded then ⟨true, true, []⟩ else ⟨false, true, []⟩

/-- The number of high-pc → `DW_AT_ranges` substitution requests
recorded for one abbreviation declaration: how many times its
low-pc/high-pc attribute pair has been rewritten to a ranges
attribute. -/
def rangesConversionCount (aps : List AbbrevPatch) (id : Nat) : Nat :=
  (aps.filter (fun p =>
    decide (p.declId = id) && decide (p.toAttr = Attr.ranges))).length

/-- The situations in which a block-tag DIE's translated output ranges
are empty: the input ranges fail to parse, are empty, no containing
function is found for their first low address, or the containing
function's translation yields the empty list. -/
def blockTranslationEmpty (inputRanges : Option (List DebugAddressRange))
    (containingFunction :
      Nat → Option (List DebugAddressRange → List DebugAddressRange)) :
    Prop :=
  match inputRanges with
  | none => True
  | some [] => True
  | some (r :: rs) =>
    match containingFunction r.lowPC with
    | none => True
    | some translate => translate (r :: rs) = []

/-- The rewriter's state at the start of a run: nothing converted,
nothing pending, the ranges writer holding only the reserved empty
list, empty patch lists, and the top-level patcher (ranges base 0). -/
def initState : RewriterState :=
  ⟨[], [], initRangesWriter, [], [], [], [], 0⟩

/-- A sample declaration with an 8-byte high-pc form, shared by the
sample DIEs below (used by the witnesses). -/
def sampleDecl : AbbrevDecl := ⟨1, false, true, true, Form.addr, Form.data8⟩

/-- A sample declaration with a 4-byte high-pc form. -/
def sampleDecl4 : AbbrevDecl := ⟨2, false, true, true, Form.addr, Form.data4⟩

/-- A sample declaration carrying a `DW_AT_ranges` attribute. -/
def sampleDeclRanges : AbbrevDecl := ⟨3, true, false, false, Form.addr, Form.data8⟩

/-- A sample subprogram DIE using `sampleDecl`. -/
def sampleDie : DieInfo := ⟨40, sampleDecl, 100, 108, 0, 0, 0, none⟩

/-- A second sample subprogram DIE using the same declaration. -/
def sampleDie2 : DieInfo := ⟨60, sampleDecl, 200, 208, 0, 0, 0, none⟩

/-- A sample block-tag DIE whose declaration has a ranges attribute. -/
def sampleBlockDie : DieInfo := ⟨80, sampleDeclRanges, 0, 0, 300, 0, 0, none⟩

/-- A sample `.gdb_index` input: version 7, one compile unit at offset
0 (16-byte CU list, empty types CU list), a 20-byte old address table,
and 4 trailing bytes; the retained output ranges hold two ranges for
the unit, so the regenerated table is 40 bytes and the delta is +20. -/
def gdbSampleInput : GdbIndexInput :=
  { contents := leBytes 4 7 ++ leBytes 4 0 ++ leBytes 4 16 ++
      leBytes 4 16 ++ leBytes 4 36 ++ leBytes 4 36 ++
      leBytes 8 0 ++ leBytes 8 100 ++ List.replicate 20 1 ++ [9, 9, 9, 9],
    cuOffsets := [0],
    cuRanges := [(0, [⟨10, 20⟩, ⟨30, 40⟩])] }

/-- The regenerated `.gdb_index` bytes for `gdbSampleInput`. -/
def gdbSampleOutput : List Nat :=
  (updateGdbIndexSection gdbSampleInput).getD []

/-- The three output ranges forcing a conversion in the shared-abbrev
witness scenario. -/
def witnessRanges2 : List DebugAddressRange := [⟨1, 2⟩, ⟨3, 4⟩, ⟨5, 6⟩]

/-- The state after deferring `sampleDie` (one output range) from the
initial state. -/
def witnessState1 : RewriterState :=
  (processSubprogramLowHigh initState sampleDie [⟨4, 10⟩]).getD initState

/-- The state after `sampleDie2` (three output ranges, same
declaration) forces the conversion. -/
def witnessState2 : RewriterState :=
  (processSubprogramLowHigh witnessState1 sampleDie2 witnessRanges2).getD
    initState

/-! ### Byte-level lemmas -/

theorem length_leBytes (w : Nat) : ∀ v, (leBytes w v).length = w := by
  induction w with
  | zero => intro v; rfl
  | succ w ih => intro v; simp [leBytes, ih]

theorem length_ulebBytes : ∀ n v, (ulebBytes n v).length = n
  | 0, _ => rfl
  | 1, _ => rfl
  | n + 2, v => by
    simp [ulebBytes, length_ulebBytes (n + 1) (v / 128)]

theorem length_writeBytesAt :
    ∀ (bs data : List Nat) (off : Nat),
      (writeBytesAt data off bs).length = data.length
  | [], _, _ => rfl
  | b :: bs, data, off => by
    simp [writeBytesAt, length_writeBytesAt bs (data.set off b) (off + 1)]

theorem getElem?_writeBytesAt :
    ∀ (bs data : List Nat) (off i : Nat),
      (i < off ∨ off + bs.length ≤ i) →
      (writeBytesAt data off bs)[i]? = data[i]?
  | [], _, _, _, _ => rfl
  | b :: bs, data, off, i, h => by
    have hne : off ≠ i := by
      rcases h with h | h
      · omega
      · simp only [List.length_cons] at h; omega
    have hrec := getElem?_writeBytesAt bs (data.set off b) (off + 1) i
      (by rcases h with h | h
          · left; omega
          · right; simp only [List.length_cons] at h; omega)
    rw [writeBytesAt, hrec, List.getElem?_set_ne hne]

theorem length_applyPatches (ps : List Patch) :
    ∀ data : List Nat, (applyPatches data ps).length = data.length := by
  induction ps with
  | nil => intro data; rfl
  | cons p ps ih =>
    intro data
    simp only [applyPatches, List.foldl_cons] at *
    rw [ih, length_writeBytesAt]

theorem getElem?_applyPatches :
    ∀ (ps : List Patch) (data : List Nat) (i : Nat),
      (∀ p ∈ ps, ¬ p.covers i) → (applyPatches data ps)[i]? = data[i]?
  | [], _, _, _ => rfl
  | p :: ps, data, i, h => by
    have h1 : ¬ p.covers i := h p (List.mem_cons_self p ps)
    have h2 : ∀ q ∈ ps, ¬ q.covers i :=
      fun q hq => h q (List.mem_cons_of_mem p hq)
    have hstep : applyPatches data (p :: ps) =
        applyPatches (writeBytesAt data p.offset p.bytes) ps := rfl
    rw [hstep, getElem?_applyPatches ps _ i h2, getElem?_writeBytesAt]
    unfold Patch.covers at h1
    omega

/-- C6: applying the finalized Byte Patch List to a copy of the
original debug section bytes changes only the bytes at patched offsets
and leaves the section's total byte length unchanged; the patches
emitted when a DIE is converted from a low-pc/high-pc pair to a ranges
attribute fill exactly the combined byte width of the two original
fields: 12 bytes for a 4-byte high-pc form, 16 bytes for an 8-byte
high-pc form. -/
theorem byte_patch_round_trip :
    (∀ (data : List Nat) (ps : List Patch),
      (applyPatches data ps).length = data.length) ∧
    (∀ (data : List Nat) (ps : List Patch) (i : Nat),
      (∀ p ∈ ps, ¬ p.covers i) → (applyPatches data ps)[i]? = data[i]?) ∧
    (∀ (die : DieInfo) (off base : Nat) (ps : List Patch),
      die.decl.lowForm = Form.addr →
      die.highPCOffset = die.lowPCOffset + 8 →
      convertToRangesDiePatches die off none base = some ps →
      ∀ i, (∃ p ∈ ps, p.covers i) ↔
        (die.lowPCOffset ≤ i ∧ i < die.lowPCOffset +
          (if die.decl.highForm = Form.data4 then 12 else 16))) := by
  refine ⟨fun data ps => length_applyPatches ps data,
          fun data ps i h => getElem?_applyPatches ps data i h, ?_⟩
  intro die off base ps hlow hadj hconv i
  cases hhf : die.decl.highForm <;>
    simp only [convertToRangesDiePatches, convertToRangesDiePatchesCore, hhf,
      numBytesToFill, hlow, reduceCtorEq, reduceIte, Option.some.injEq,
      if_false] at hconv
  case addr =>
    subst hconv
    rw [show (if Form.addr = Form.data4 then (12 : Nat) else 16) = 16 from
      by decide]
    simp only [List.mem_cons, List.not_mem_nil, or_false, exists_eq_or_imp,
      exists_eq_left, Patch.covers, length_ulebBytes, length_leBytes, hadj]
    omega
  case data4 =>
    rw [if_neg (by decide)] at hconv
    subst hconv
    rw [show (if Form.data4 = Form.data4 then (12 : Nat) else 16) = 12 from
      by decide]
    simp only [List.mem_cons, List.not_mem_nil, or_false, exists_eq_or_imp,
      exists_eq_left, Patch.covers, length_ulebBytes, length_leBytes, hadj]
    omega
  case data8 =>
    subst hconv
    rw [show (if Form.data8 = Form.data4 then (12 : Nat) else 16) = 16 from
      by decide]
    simp only [List.mem_cons, List.not_mem_nil, or_false, exists_eq_or_imp,
      exists_eq_left, Patch.covers, length_ulebBytes, length_leBytes, hadj]
    omega

/-- Witness for `byte_patch_round_trip` at concrete inputs. -/
theorem byte_patch_round_trip_witness :
    (applyPatches [1, 2, 3] [⟨0, [7]⟩]).length = ([1, 2, 3] : List Nat).length ∧
    (applyPatches [1, 2, 3] [⟨0, [7]⟩])[2]? = ([1, 2, 3] : List Nat)[2]? ∧
    ((∃ p ∈ [Patch.mk 100 (ulebBytes 4 formAddrCode),
              Patch.mk 104 (leBytes 8 0),
              Patch.mk 112 (leBytes 4 32)], p.covers 113) ↔
      (100 ≤ 113 ∧ 113 < 100 + 16)) :=
  ⟨byte_patch_round_trip.1 [1, 2, 3] [⟨0, [7]⟩],
   byte_patch_round_trip.2.1 [1, 2, 3] [⟨0, [7]⟩] 2 (by decide),
   by
    have h := byte_patch_round_trip.2.2 sampleDie 32 0
      [⟨100, ulebBytes 4 formAddrCode⟩, ⟨104, leBytes 8 0⟩,
       ⟨112, leBytes 4 32⟩] (by decide) (by decide) (by decide) 113
    simpa [sampleDie, sampleDecl] using h⟩

/-- C5: within one cache scope, adding two equal range lists through
the cached `add_ranges` path returns the identical ranges-section
offset without duplicate storage (the writer state is unchanged by the
second add), and adding two unequal range lists returns distinct
offsets.  The hypothesis `16 ≤ rw.sectionOffset` records that the
section always starts with the 16-byte reserved empty list, so real
entries never sit at the empty-ranges offset. -/
theorem addRanges_cache_dedup (rw : RangesWriter)
    (A B : List DebugAddressRange) (hinit : 16 ≤ rw.sectionOffset) :
    ((A = B →
      (addRangesCached (addRangesCached rw [] A).2.1
        (addRangesCached rw [] A).2.2 B).1 = (addRangesCached rw [] A).1 ∧
      (addRangesCached (addRangesCached rw [] A).2.1
        (addRangesCached rw [] A).2.2 B).2.1 =
        (addRangesCached rw [] A).2.1) ∧
     (A ≠ B →
      (addRangesCached (addRangesCached rw [] A).2.1
        (addRangesCached rw [] A).2.2 B).1 ≠ (addRangesCached rw [] A).1)) := by
  constructor
  · rintro rfl
    by_cases hA : A.isEmpty
    · simp [addRangesCached, hA]
    · simp only [addRangesCached, hA, if_false, Bool.false_eq_true]
      simp [cacheLookup, addRanges]
  · intro hne
    by_cases hA : A.isEmpty
    · by_cases hB : B.isEmpty
      · exact absurd (by
          cases A <;> cases B <;> simp_all) hne
      · simp [addRangesCached, cacheLookup, addRanges, emptyRangesOffset,
          hA, hB]
        omega
    · by_cases hB : B.isEmpty
      · simp [addRangesCached, cacheLookup, addRanges, emptyRangesOffset,
          hA, hB]
        omega
      · simp [addRangesCached, cacheLookup, addRanges, emptyRangesOffset,
          hA, hB, hne]

/-- Witness for `addRanges_cache_dedup` at concrete inputs. -/
theorem addRanges_cache_dedup_witness :
    16 ≤ initRangesWriter.sectionOffset ∧
    ((([⟨1, 2⟩] : List DebugAddressRange) = [⟨1, 2⟩] →
      (addRangesCached (addRangesCached initRangesWriter [] [⟨1, 2⟩]).2.1
        (addRangesCached initRangesWriter [] [⟨1, 2⟩]).2.2 [⟨1, 2⟩]).1 =
        (addRangesCached initRangesWriter [] [⟨1, 2⟩]).1 ∧
      (addRangesCached (addRangesCached initRangesWriter [] [⟨1, 2⟩]).2.1
        (addRangesCached initRangesWriter [] [⟨1, 2⟩]).2.2 [⟨1, 2⟩]).2.1 =
        (addRangesCached initRangesWriter [] [⟨1, 2⟩]).2.1) ∧
     (([⟨1, 2⟩] : List DebugAddressRange) ≠ [⟨1, 2⟩] →
      (addRangesCached (addRangesCached initRangesWriter [] [⟨1, 2⟩]).2.1
        (addRangesCached initRangesWriter [] [⟨1, 2⟩]).2.2 [⟨1, 2⟩]).1 ≠
        (addRangesCached initRangesWriter [] [⟨1, 2⟩]).1)) :=
  ⟨by decide, addRanges_cache_dedup initRangesWriter [⟨1, 2⟩] [⟨1, 2⟩]
    (by decide)⟩

/-! ### DWP / DWO emission lemmas -/

theorem loadedIds_cons (cu : CUInfo) (rest : List CUInfo) :
    loadedIds (cu :: rest) =
      match cu.dwoId with
      | none => loadedIds rest
      | some d => if cu.loaded then d :: loadedIds rest else loadedIds rest := by
  cases hid : cu.dwoId <;> cases hl : cu.loaded <;>
    simp [loadedIds, List.filterMap_cons, hid, hl]

theorem writeDWPLoop_dup :
    ∀ (cus : List CUInfo) (acc : List Nat), acc.Nodup →
      ¬ (acc ++ loadedIds cus).Nodup →
      ∃ d, d ∈ acc ++ loadedIds cus ∧
        (writeDWPLoop cus acc).diagnostics = [d] ∧
        (writeDWPLoop cus acc).indexWritten = false ∧
        (writeDWPLoop cus acc).outputKept = false ∧
        (writeDWPLoop cus acc).processExited = false
  | [], acc, hacc, hdup => by
    exact absurd (by simpa [loadedIds] using hacc) hdup
  | cu :: rest, acc, hacc, hdup => by
    rw [loadedIds_cons] at hdup
    cases hid : cu.dwoId with
    | none =>
      rw [hid] at hdup
      have := writeDWPLoop_dup rest acc hacc hdup
      simpa [writeDWPLoop, hid, loadedIds_cons] using this
    | some d =>
      rw [hid] at hdup
      cases hl : cu.loaded with
      | false =>
        rw [hl] at hdup; simp only [if_false, Bool.false_eq_true] at hdup
        have := writeDWPLoop_dup rest acc hacc hdup
        simpa [writeDWPLoop, hid, hl, loadedIds_cons] using this
      | true =>
        rw [hl] at hdup; simp only [if_true] at hdup
        by_cases hmem : d ∈ acc
        · refine ⟨d, ?_, ?_, ?_, ?_, ?_⟩ <;>
            simp [writeDWPLoop, hid, hl, hmem, loadedIds_cons]
        · have hacc2 : (acc ++ [d]).Nodup := by
            rw [List.nodup_append]
            exact ⟨hacc, List.nodup_singleton d,
              fun x hx hmem2 => by
                simp only [List.mem_singleton] at hmem2
                subst hmem2; exact hmem hx⟩
          have hdup2 : ¬ ((acc ++ [d]) ++ loadedIds rest).Nodup := by
            rw [List.append_assoc, List.singleton_append]; exact hdup
          obtain ⟨d', hd'mem, h1, h2, h3, h4⟩ :=
            writeDWPLoop_dup rest (acc ++ [d]) hacc2 hdup2
          refine ⟨d', ?_, ?_, ?_, ?_, ?_⟩ <;>
            simp_all [writeDWPLoop, hid, hl, hmem, loadedIds_cons,
              List.append_assoc]

/-- C7 (amended): encountering two compile units with the same loaded
split-unit signature makes `writeDWP` print a `BOLT-ERROR` diagnostic
naming the duplicate and abandon DWP emission — it returns before
writing the unit index and before keeping the output file — but it does
not terminate the process: no `exit` is reached on this path. -/
theorem writeDWP_duplicate_aborts_without_exit (cus : List CUInfo)
    (hdup : ¬ (loadedIds cus).Nodup) :
    ∃ d, d ∈ loadedIds cus ∧
      (writeDWP cus).diagnostics = [d] ∧
      (writeDWP cus).indexWritten = false ∧
      (writeDWP cus).outputKept = false ∧
      (writeDWP cus).processExited = false := by
  have := writeDWPLoop_dup cus [] List.nodup_nil (by simpa using hdup)
  simpa [writeDWP] using this

/-- Witness for `writeDWP_duplicate_aborts_without_exit`. -/
theorem writeDWP_duplicate_aborts_without_exit_witness :
    ¬ (loadedIds [⟨some 5, true⟩, ⟨some 5, true⟩]).Nodup ∧
    ∃ d, d ∈ loadedIds [⟨some 5, true⟩, ⟨some 5, true⟩] ∧
      (writeDWP [⟨some 5, true⟩, ⟨some 5, true⟩]).diagnostics = [d] ∧
      (writeDWP [⟨some 5, true⟩, ⟨some 5, true⟩]).indexWritten = false ∧
      (writeDWP [⟨some 5, true⟩, ⟨some 5, true⟩]).outputKept = false ∧
      (writeDWP [⟨some 5, true⟩, ⟨some 5, true⟩]).processExited = false :=
  ⟨by decide,
   writeDWP_duplicate_aborts_without_exit [⟨some 5, true⟩, ⟨some 5, true⟩]
     (by decide)⟩

/-- C7 counterexample: on two units with the same signature, the code
prints the diagnostic but does not terminate the process — `writeDWP`
returns and the rewrite continues — contradicting the claim that the
whole rewrite aborts with a non-zero process status. -/
theorem writeDWP_duplicate_counterexample :
    (writeDWP [⟨some 5, true⟩, ⟨some 5, true⟩]).diagnostics = [5] ∧
    (writeDWP [⟨some 5, true⟩, ⟨some 5, true⟩]).processExited = false := by
  decide

theorem writeDWOFiles_spec (cus : List CUInfo) :
    (writeDWOFiles cus).files = loadedIds cus ∧
    (writeDWOFiles cus).diagnostics = [] := by
  induction cus with
  | nil => simp [writeDWOFiles, loadedIds]
  | cons cu rest ih =>
    rw [loadedIds_cons]
    cases hid : cu.dwoId <;> cases hl : cu.loaded <;>
      simp_all [writeDWOFiles, hid, hl]

theorem writeDWPLoop_entries_sub :
    ∀ (cus : List CUInfo) (acc : List Nat),
      ∀ x ∈ (writeDWPLoop cus acc).indexEntries, x ∈ acc ++ loadedIds cus
  | [], acc, x, hx => by
    simpa [writeDWPLoop, loadedIds] using hx
  | cu :: rest, acc, x, hx => by
    rw [loadedIds_cons]
    simp only [writeDWPLoop] at hx
    cases hid : cu.dwoId with
    | none =>
      rw [hid] at hx
      exact writeDWPLoop_entries_sub rest acc x hx
    | some d =>
      rw [hid] at hx
      cases hl : cu.loaded with
      | false =>
        rw [hl] at hx
        simp only [if_pos rfl] at hx
        simp only [if_neg (by decide : ¬ (false = true))]
        exact writeDWPLoop_entries_sub rest acc x hx
      | true =>
        rw [hl] at hx
        simp only [if_neg (by decide : ¬ (true = false))] at hx
        simp only [if_pos rfl]
        by_cases hmem : d ∈ acc
        · rw [if_pos hmem] at hx
          exact List.mem_append_left _ hx
        · rw [if_neg hmem] at hx
          have h2 := writeDWPLoop_entries_sub rest (acc ++ [d]) x hx
          rw [List.append_assoc, List.singleton_append] at h2
          exact h2

/-- C8 (amended): a compile unit carrying a DWO ID whose split unit is
not in the loaded split-unit set is skipped by the DWO/DWP emission
passes — no output file is created for it and its signature never
enters the DWP index — and the driver skips only its split-unit
rewrite; the skip is silent (no diagnostic is printed) and the skeleton
unit itself is still processed by the per-unit rewrite driver. -/
theorem unloaded_split_unit_skipped_silently (cus : List CUInfo) :
    (writeDWOFiles cus).diagnostics = [] ∧
    (writeDWOFiles cus).files = loadedIds cus ∧
    (∀ x ∈ (writeDWP cus).indexEntries, x ∈ loadedIds cus) ∧
    (∀ (cu : CUInfo) (d : Nat), cu.dwoId = some d → cu.loaded = false →
      processUnitDriver cu = ⟨false, true, []⟩) := by
  refine ⟨(writeDWOFiles_spec cus).2, (writeDWOFiles_spec cus).1, ?_, ?_⟩
  · intro x hx
    simpa using writeDWPLoop_entries_sub cus [] x hx
  · intro cu d hid hl
    simp [processUnitDriver, hid, hl]

/-- Witness for `unloaded_split_unit_skipped_silently`. -/
theorem unloaded_split_unit_skipped_silently_witness :
    (writeDWOFiles [⟨some 1, false⟩]).diagnostics = [] ∧
    (writeDWOFiles [⟨some 1, false⟩]).files = loadedIds [⟨some 1, false⟩] ∧
    (∀ x ∈ (writeDWP [⟨some 1, false⟩]).indexEntries,
      x ∈ loadedIds [⟨some 1, false⟩]) ∧
    (∀ (cu : CUInfo) (d : Nat), cu.dwoId = some d → cu.loaded = false →
      processUnitDriver cu = ⟨false, true, []⟩) :=
  unloaded_split_unit_skipped_silently [⟨some 1, false⟩]

/-- C8 counterexample: for a unit whose DWO ID is not loaded, the code
emits no diagnostic at all (the skip is a silent `continue`), and the
skeleton unit is still processed by the driver — contradicting the
claim that the unit is "skipped entirely" with "only a diagnostic"
emitted. -/
theorem unloaded_split_unit_counterexample :
    (writeDWOFiles [⟨some 1, false⟩]).files = [] ∧
    (writeDWOFiles [⟨some 1, false⟩]).diagnostics = [] ∧
    (writeDWP [⟨some 1, false⟩]).diagnostics = [] ∧
    (processUnitDriver ⟨some 1, false⟩).skeletonProcessed = true ∧
    (processUnitDriver ⟨some 1, false⟩).diagnostics = [] := by
  decide

/-! ### Location-list offset resolution lemmas -/

theorem lookupD_append_first :
    ∀ (m0 : List (Nat × Nat)) (k v : Nat) (t : List (Nat × Nat)),
      (∀ kv ∈ m0, kv.1 ≠ k) →
      lookupD (m0 ++ (k, v) :: t) k 0 = v
  | [], k, v, t, _ => by simp [lookupD]
  | kv0 :: m0, k, v, t, h => by
    have h0 : kv0.1 ≠ k := h kv0 (List.mem_cons_self kv0 m0)
    have hrest : ∀ kv ∈ m0, kv.1 ≠ k :=
      fun kv hkv => h kv (List.mem_cons_of_mem kv0 hkv)
    cases kv0 with
    | mk k0 v0 =>
      simp only [List.cons_append, lookupD]
      rw [if_neg (by simpa using h0)]
      exact lookupD_append_first m0 k v t hrest

theorem buildLocSection_map_grows :
    ∀ (ws : List LocWriterEntry) (buf : List Nat) (off : Nat)
      (m : List (Nat × Nat)),
      ∃ t, (buildLocSection ws buf off m).2 = m ++ t
  | [], buf, off, m => ⟨[], by simp [buildLocSection]⟩
  | w :: rest, buf, off, m => by
    by_cases hw : w.isLoclistWriter
    · simpa [buildLocSection, hw] using
        buildLocSection_map_grows rest buf off m
    · obtain ⟨t, ht⟩ := buildLocSection_map_grows rest (buf ++ w.buffer)
        (off + w.buffer.length) (m ++ [(w.cuIndex, off)])
      exact ⟨(w.cuIndex, off) :: t, by
        simp [buildLocSection, hw, ht]⟩

theorem buildLocSection_lookup :
    ∀ (ws1 : List LocWriterEntry) (w : LocWriterEntry)
      (ws2 : List LocWriterEntry) (buf : List Nat) (off : Nat)
      (m : List (Nat × Nat)),
      w.isLoclistWriter = false →
      (∀ w' ∈ ws1, w'.cuIndex ≠ w.cuIndex) →
      (∀ kv ∈ m, kv.1 ≠ w.cuIndex) →
      lookupD (buildLocSection (ws1 ++ w :: ws2) buf off m).2 w.cuIndex 0 =
        off + nonSplitLocSize ws1
  | [], w, ws2, buf, off, m, hw, _, hm => by
    simp only [List.nil_append, buildLocSection, hw, Bool.false_eq_true,
      if_false, nonSplitLocSize]
    obtain ⟨t, ht⟩ := buildLocSection_map_grows ws2 (buf ++ w.buffer)
      (off + w.buffer.length) (m ++ [(w.cuIndex, off)])
    rw [ht, List.append_assoc, List.singleton_append]
    simpa using lookupD_append_first m w.cuIndex off t hm
  | w1 :: ws1, w, ws2, buf, off, m, hw, hws, hm => by
    have hw1 : w1.cuIndex ≠ w.cuIndex := hws w1 (List.mem_cons_self w1 ws1)
    have hws1 : ∀ w' ∈ ws1, w'.cuIndex ≠ w.cuIndex :=
      fun w' h => hws w' (List.mem_cons_of_mem w1 h)
    by_cases h1 : w1.isLoclistWriter
    · simp only [List.cons_append, buildLocSection, h1, eq_self_iff_true,
        if_true, nonSplitLocSize, List.append_eq]
      rw [buildLocSection_lookup ws1 w ws2 buf off m hw hws1 hm]
      omega
    · simp only [List.cons_append, buildLocSection, h1, if_false,
        nonSplitLocSize, List.append_eq, Bool.not_eq_true] at h1 ⊢
      simp only [h1, Bool.false_eq_true, if_false]
      rw [buildLocSection_lookup ws1 w ws2 (buf ++ w1.buffer)
        (off + w1.buffer.length) (m ++ [(w1.cuIndex, off)]) hw hws1
        (by intro kv hkv
            rcases List.mem_append.mp hkv with h | h
            · exact hm kv h
            · simp only [List.mem_singleton] at h
              subst h; exact hw1)]
      omega

/-- C4 (amended): for units processed in a fixed iteration order, the
globally resolved offset patched into debug-info for a deferred
location-list entry equals 16 — the size of the reserved empty location
list emitted at the start of the final section — plus the sum of all
preceding units' finalized location buffer sizes plus the entry's
unit-local offset recorded during the walk. -/
theorem locList_offset_two_pass_amended (ws1 ws2 : List LocWriterEntry)
    (w : LocWriterEntry) (p : LocPatchRec)
    (hw : w.isLoclistWriter = false)
    (hcu : w.cuIndex = p.cuIndex)
    (hnotin : ∀ w' ∈ ws1, w'.cuIndex ≠ p.cuIndex) :
    (makeFinalLocListsSection (ws1 ++ w :: ws2) [p]).2 =
      [⟨p.debugInfoOffset,
        leBytes 4 (16 + nonSplitLocSize ws1 + p.cuWriterOffset)⟩] := by
  have h := buildLocSection_lookup ws1 w ws2 (List.replicate 16 0) 16 []
    hw (by simpa [hcu] using hnotin) (by simp)
  rw [hcu] at h
  simp only [makeFinalLocListsSection, List.map_cons, List.map_nil]
  rw [h]

/-- Witness for `locList_offset_two_pass_amended`. -/
theorem locList_offset_two_pass_amended_witness :
    (LocWriterEntry.mk 7 false [0, 0, 0]).isLoclistWriter = false ∧
    (makeFinalLocListsSection
      [⟨3, false, [1, 2, 3, 4]⟩, ⟨9, true, [5, 5]⟩, ⟨7, false, [0, 0, 0]⟩]
      [⟨77, 7, 5⟩]).2 =
      [⟨77, leBytes 4 (16 + nonSplitLocSize [⟨3, false, [1, 2, 3, 4]⟩,
        ⟨9, true, [5, 5]⟩] + 5)⟩] :=
  ⟨rfl, locList_offset_two_pass_amended
    [⟨3, false, [1, 2, 3, 4]⟩, ⟨9, true, [5, 5]⟩] [] ⟨7, false, [0, 0, 0]⟩
    ⟨77, 7, 5⟩ rfl rfl (by decide)⟩

/-- C4 counterexample: with a single unit whose writer finalizes to an
8-byte buffer and one deferred entry at unit-local offset 0, the code
patches the value 16 (the reserved empty list precedes every unit's
buffer), while the claim's formula — the sum of all preceding units'
buffer sizes (0) plus the local offset (0) — predicts 0. -/
theorem locList_offset_claim_counterexample :
    (makeFinalLocListsSection [⟨0, false, List.replicate 8 0⟩]
      [⟨0, 0, 0⟩]).2 = [⟨0, leBytes 4 16⟩] ∧
    leBytes 4 16 ≠ leBytes 4 (0 + 0) := by
  decide

/-! ### Block-tag range updates -/

theorem rangesConversionCount_convert (aps : List AbbrevPatch)
    (decl : AbbrevDecl) :
    rangesConversionCount (convertAbbrevPatches aps decl none) decl.declId =
      rangesConversionCount aps decl.declId + 1 := by
  unfold convertAbbrevPatches rangesConversionCount
  by_cases hc : decl.lowForm ≠ Form.gnuAddrIndex ∧
      isHighPcFormEightBytes decl.highForm
  · simp [hc, List.filter_append]
  · simp [hc, List.filter_append]

theorem updateObjectRanges_at_empty (st : RewriterState) (die : DieInfo)
    (st' : RewriterState) (hbase : st.patcherRangeBase = 0)
    (h : updateObjectRanges st die emptyRangesOffset = some st') :
    st'.ranges = st.ranges ∧ st'.pending = st.pending ∧
    (die.decl.hasRangesAttr = true →
      st'.infoPatches = st.infoPatches ++
        [⟨die.rangesAttrOffset, leBytes 4 emptyRangesOffset⟩]) ∧
    (die.decl.hasRangesAttr = false → die.decl.hasLowPC = true →
      die.decl.hasHighPC = true →
      rangesConversionCount st'.abbrevPatches die.decl.declId =
        rangesConversionCount st.abbrevPatches die.decl.declId + 1) := by
  unfold updateObjectRanges at h
  by_cases hR : die.decl.hasRangesAttr = true
  · rw [if_pos hR] at h
    simp only [Option.some.injEq] at h
    subst h
    refine ⟨rfl, rfl, fun _ => ?_, fun habs => absurd hR (by simp [habs])⟩
    simp [hbase, emptyRangesOffset]
  · rw [if_neg hR] at h
    by_cases hLH : (die.decl.hasLowPC && die.decl.hasHighPC) = true
    · rw [if_pos hLH] at h
      cases hcp : convertToRangesDiePatches die emptyRangesOffset none
          st.patcherRangeBase with
      | none => rw [hcp] at h; exact absurd h (by simp)
      | some ps =>
        rw [hcp] at h
        simp only [Option.some.injEq] at h
        subst h
        refine ⟨rfl, rfl, fun habs => absurd habs hR, fun _ _ _ => ?_⟩
        exact rangesConversionCount_convert st.abbrevPatches die.decl
    · rw [if_neg hLH] at h
      simp only [Option.some.injEq] at h
      subst h
      refine ⟨rfl, rfl, fun habs => absurd habs hR, fun _ hl hh => ?_⟩
      exact absurd (by simp [hl, hh]) hLH

/-- C9: for every lexical-block / inlined-subroutine / try-block /
catch-block DIE whose translated output ranges are empty (including
when the input ranges fail to parse, are empty, or no containing
function is found), the range attribute is rewritten to reference the
shared reserved empty-ranges offset — the ranges writer allocates no
new entry and the cache is untouched — and the ranges encoding is
always used for these tags: an existing `DW_AT_ranges` attribute is
patched, or the low-pc/high-pc pair is converted to a ranges attribute,
and the DIE is never deferred into the pending low/high-pc machinery
(the pending map is unchanged). -/
theorem block_tag_empty_ranges_shared_offset (st : RewriterState)
    (cache : RangesCache) (die : DieInfo)
    (inputRanges : Option (List DebugAddressRange))
    (f : Nat → Option (List DebugAddressRange → List DebugAddressRange))
    (st' : RewriterState) (cache' : RangesCache)
    (hbase : st.patcherRangeBase = 0)
    (hempty : blockTranslationEmpty inputRanges f)
    (h : processBlockTag st cache die inputRanges f = some (st', cache')) :
    st'.ranges = st.ranges ∧ cache' = cache ∧ st'.pending = st.pending ∧
    (die.decl.hasRangesAttr = true →
      st'.infoPatches = st.infoPatches ++
        [⟨die.rangesAttrOffset, leBytes 4 emptyRangesOffset⟩]) ∧
    (die.decl.hasRangesAttr = false → die.decl.hasLowPC = true →
      die.decl.hasHighPC = true →
      rangesConversionCount st'.abbrevPatches die.decl.declId =
        rangesConversionCount st.abbrevPatches die.decl.declId + 1) := by
  have hmid : updateObjectRanges { st with ranges := st.ranges } die
        emptyRangesOffset = some st' ∧ cache' = cache := by
    unfold processBlockTag at h
    cases inputRanges with
    | none =>
      simp only [] at h
      cases hu : updateObjectRanges { st with ranges := st.ranges } die
          emptyRangesOffset with
      | none => rw [hu] at h; exact absurd h (by simp)
      | some st1 =>
        rw [hu] at h
        simp only [Option.some.injEq, Prod.mk.injEq] at h
        exact ⟨by rw [h.1], h.2.symm⟩
    | some l =>
      cases l with
      | nil =>
        simp only [] at h
        cases hu : updateObjectRanges { st with ranges := st.ranges } die
            emptyRangesOffset with
        | none => rw [hu] at h; exact absurd h (by simp)
        | some st1 =>
          rw [hu] at h
          simp only [Option.some.injEq, Prod.mk.injEq] at h
          exact ⟨by rw [h.1], h.2.symm⟩
      | cons r rs =>
        cases hf : f r.lowPC with
        | none =>
          simp only [] at h
          rw [hf] at h
          simp only [] at h
          cases hu : updateObjectRanges { st with ranges := st.ranges } die
              emptyRangesOffset with
          | none => rw [hu] at h; exact absurd h (by simp)
          | some st1 =>
            rw [hu] at h
            simp only [Option.some.injEq, Prod.mk.injEq] at h
            exact ⟨by rw [h.1], h.2.symm⟩
        | some translate =>
          have htr : translate (r :: rs) = [] := by
            simpa [blockTranslationEmpty, hf] using hempty
          simp only [] at h
          rw [hf] at h
          simp only [] at h
          rw [show addRangesCached st.ranges cache (translate (r :: rs)) =
              (emptyRangesOffset, st.ranges, cache) from
            by rw [htr]; simp [addRangesCached]] at h
          simp only [] at h
          cases hu : updateObjectRanges { st with ranges := st.ranges } die
              emptyRangesOffset with
          | none => rw [hu] at h; exact absurd h (by simp)
          | some st1 =>
            rw [hu] at h
            simp only [Option.some.injEq, Prod.mk.injEq] at h
            exact ⟨by rw [h.1], h.2.symm⟩
  obtain ⟨hu, hc⟩ := hmid
  have hspec := updateObjectRanges_at_empty { st with ranges := st.ranges }
    die st' (by simpa using hbase) hu
  exact ⟨hspec.1, hc, hspec.2.1, hspec.2.2.1, hspec.2.2.2⟩

/-- Witness for `block_tag_empty_ranges_shared_offset`: a block DIE in
a fully removed function (no containing function is found for its input
range) is patched to the shared empty-ranges offset. -/
theorem block_tag_empty_ranges_shared_offset_witness :
    initState.patcherRangeBase = 0 ∧
    blockTranslationEmpty (some [⟨5, 9⟩]) (fun _ => none) ∧
    processBlockTag initState [] sampleBlockDie (some [⟨5, 9⟩])
      (fun _ => none) =
      some ({ initState with infoPatches :=
        [⟨sampleBlockDie.rangesAttrOffset, leBytes 4 emptyRangesOffset⟩] },
        []) ∧
    ({ initState with infoPatches :=
        [⟨sampleBlockDie.rangesAttrOffset, leBytes 4 emptyRangesOffset⟩]
      } : RewriterState).ranges = initState.ranges ∧
    ([] : RangesCache) = ([] : RangesCache) ∧
    ({ initState with infoPatches :=
        [⟨sampleBlockDie.rangesAttrOffset, leBytes 4 emptyRangesOffset⟩]
      } : RewriterState).pending = initState.pending := by
  refine ⟨rfl, trivial, by decide, ?_, rfl, rfl⟩
  have h := block_tag_empty_ranges_shared_offset initState [] sampleBlockDie
    (some [⟨5, 9⟩]) (fun _ => none)
    { initState with infoPatches :=
        [⟨sampleBlockDie.rangesAttrOffset, leBytes 4 emptyRangesOffset⟩] }
    [] rfl trivial (by decide)
  exact h.1

/-! ### Pending-ranges machinery lemmas -/

theorem pendingLookup_add_self :
    ∀ (m : PendingMap) (k : AbbrevDecl) (e : DieInfo × DebugAddressRange),
      pendingLookup (pendingAdd m k e) k = some (entriesOf m k ++ [e])
  | [], k, e => by simp [pendingAdd, pendingLookup, entriesOf]
  | (k', v) :: rest, k, e => by
    by_cases hk : k' = k
    · simp [pendingAdd, pendingLookup, entriesOf, hk]
    · simp only [pendingAdd, hk, if_false, pendingLookup, entriesOf]
      exact pendingLookup_add_self rest k e

/-- C10: every Pending Range Entry carries exactly one address range:
when a subprogram's output ranges are empty at deferral time, the
single default `(0, 0)` range is substituted before the entry is
recorded, so the deferral succeeds (the recorded entry is exactly
`(DIE, (0, 0))` appended to the declaration's pending list) and the
later flush, which reads that retained range, patches the DIE's low-pc
with 0 and its high-pc with 0 (at the width of its high-pc form). -/
theorem pending_entry_single_default_range (st : RewriterState)
    (die : DieInfo) (hlow : die.decl.lowForm = Form.addr)
    (hconv : die.decl ∉ st.converted) :
    processSubprogramLowHigh st die [] =
      some { st with
        pending := pendingAdd st.pending die.decl (die, ⟨0, 0⟩) } ∧
    entriesOf ({ st with
        pending := pendingAdd st.pending die.decl (die, ⟨0, 0⟩)
      } : RewriterState).pending die.decl =
      entriesOf st.pending die.decl ++ [(die, ⟨0, 0⟩)] ∧
    patchLowHighSt { st with
        pending := pendingAdd st.pending die.decl (die, ⟨0, 0⟩) } die
        ⟨0, 0⟩ =
      some { st with
        pending := pendingAdd st.pending die.decl (die, ⟨0, 0⟩),
        infoPatches := st.infoPatches ++
          [⟨die.lowPCOffset, leBytes 8 0⟩,
           ⟨die.highPCOffset,
            if isHighPcFormEightBytes die.decl.highForm then leBytes 8 0
            else leBytes 4 0⟩] } := by
  refine ⟨?_, ?_, ?_⟩
  · simp [processSubprogramLowHigh, addToPendingRangesSt, hconv, hlow]
  · show entriesOf (pendingAdd st.pending die.decl (die, ⟨0, 0⟩)) die.decl =
      entriesOf st.pending die.decl ++ [(die, ⟨0, 0⟩)]
    unfold entriesOf
    rw [pendingLookup_add_self]
    simp [entriesOf]
  · simp [patchLowHighSt, hlow]

/-- Witness for `pending_entry_single_default_range`. -/
theorem pending_entry_single_default_range_witness :
    processSubprogramLowHigh initState sampleDie [] =
      some { initState with
        pending := [(sampleDecl, [(sampleDie, ⟨0, 0⟩)])] } ∧
    entriesOf [(sampleDecl, [(sampleDie, ⟨0, 0⟩)])] sampleDie.decl =
      entriesOf initState.pending sampleDie.decl ++ [(sampleDie, ⟨0, 0⟩)] ∧
    patchLowHighSt { initState with
        pending := [(sampleDecl, [(sampleDie, ⟨0, 0⟩)])] } sampleDie
        ⟨0, 0⟩ =
      some { initState with
        pending := [(sampleDecl, [(sampleDie, ⟨0, 0⟩)])],
        infoPatches := initState.infoPatches ++
          [⟨sampleDie.lowPCOffset, leBytes 8 0⟩,
           ⟨sampleDie.highPCOffset,
            if isHighPcFormEightBytes sampleDie.decl.highForm then leBytes 8 0
            else leBytes 4 0⟩] } :=
  pending_entry_single_default_range initState sampleDie rfl (by decide)

theorem patchLowHighSt_spec (st : RewriterState) (die : DieInfo)
    (r : DebugAddressRange) (st' : RewriterState)
    (h : patchLowHighSt st die r = some st') :
    st'.addrWriter = st.addrWriter ∧ st'.pending = st.pending ∧
    st'.converted = st.converted ∧ st'.ranges = st.ranges ∧
    st'.abbrevPatches = st.abbrevPatches ∧
    (∀ p ∈ st.infoPatches, p ∈ st'.infoPatches) ∧
    (∀ q ∈ st.dwoPatches, q ∈ st'.dwoPatches) := by
  simp only [patchLowHighSt] at h
  by_cases hl : die.decl.lowForm = Form.gnuAddrIndex
  · rw [if_pos hl] at h
    cases hd : die.dwoId with
    | none => rw [hd] at h; exact absurd h (by simp)
    | some d =>
      rw [hd] at h
      simp only [] at h
      cases hi : getIndexFromAddress st.addrWriter r.lowPC d with
      | none => rw [hi] at h; exact absurd h (by simp)
      | some idx =>
        rw [hi] at h
        simp only [Option.some.injEq] at h
        subst h
        refine ⟨rfl, rfl, rfl, rfl, rfl, fun p hp => hp, fun q hq => ?_⟩
        simp [hq]
  · rw [if_neg hl] at h
    simp only [Option.some.injEq] at h
    subst h
    refine ⟨rfl, rfl, rfl, rfl, rfl, fun p hp => ?_, fun q hq => hq⟩
    simp [hp]

theorem patchLowHighSt_self_mem (st : RewriterState) (die : DieInfo)
    (r : DebugAddressRange) (st' : RewriterState)
    (h : patchLowHighSt st die r = some st') :
    (die.decl.lowForm ≠ Form.gnuAddrIndex →
      (⟨die.lowPCOffset, leBytes 8 r.lowPC⟩ : Patch) ∈ st'.infoPatches ∧
      (⟨die.highPCOffset,
        if isHighPcFormEightBytes die.decl.highForm
        then leBytes 8 (r.highPC - r.lowPC)
        else leBytes 4 (r.highPC - r.lowPC)⟩ : Patch) ∈ st'.infoPatches) ∧
    (die.decl.lowForm = Form.gnuAddrIndex →
      ∃ d idx, die.dwoId = some d ∧
        getIndexFromAddress st.addrWriter r.lowPC d = some idx ∧
        (d, (⟨die.lowPCOffset,
          ulebBytes (natAbsDiff die.highPCOffset die.lowPCOffset) idx⟩ :
            Patch)) ∈ st'.dwoPatches ∧
        (d, (⟨die.highPCOffset,
          if isHighPcFormEightBytes die.decl.highForm
          then leBytes 8 (r.highPC - r.lowPC)
          else leBytes 4 (r.highPC - r.lowPC)⟩ : Patch)) ∈ st'.dwoPatches) := by
  simp only [patchLowHighSt] at h
  by_cases hl : die.decl.lowForm = Form.gnuAddrIndex
  · rw [if_pos hl] at h
    cases hd : die.dwoId with
    | none => rw [hd] at h; exact absurd h (by simp)
    | some d =>
      rw [hd] at h
      simp only [] at h
      cases hi : getIndexFromAddress st.addrWriter r.lowPC d with
      | none => rw [hi] at h; exact absurd h (by simp)
      | some idx =>
        rw [hi] at h
        simp only [Option.some.injEq] at h
        subst h
        refine ⟨fun hne => absurd hl hne, fun _ => ⟨d, idx, rfl, hi, ?_, ?_⟩⟩ <;>
          simp
  · rw [if_neg hl] at h
    simp only [Option.some.injEq] at h
    subst h
    refine ⟨fun _ => ⟨?_, ?_⟩, fun heq => absurd heq hl⟩ <;> simp

theorem flushEntries_mono :
    ∀ (es : List (DieInfo × DebugAddressRange)) (st st' : RewriterState),
      flushEntries st es = some st' →
      st'.addrWriter = st.addrWriter ∧
      (∀ p ∈ st.infoPatches, p ∈ st'.infoPatches) ∧
      (∀ q ∈ st.dwoPatches, q ∈ st'.dwoPatches)
  | [], st, st', h => by
    simp only [flushEntries, Option.some.injEq] at h
    subst h
    exact ⟨rfl, fun p hp => hp, fun q hq => hq⟩
  | e :: rest, st, st', h => by
    simp only [flushEntries] at h
    cases h1 : patchLowHighSt st e.1 e.2 with
    | none => rw [h1] at h; exact absurd h (by simp)
    | some st1 =>
      rw [h1] at h
      obtain ⟨ha, hi, hd⟩ := flushEntries_mono rest st1 st' h
      obtain ⟨ha1, _, _, _, _, hi1, hd1⟩ := patchLowHighSt_spec st e.1 e.2 st1 h1
      exact ⟨ha.trans ha1, fun p hp => hi p (hi1 p hp),
        fun q hq => hd q (hd1 q hq)⟩

theorem flushEntries_mem :
    ∀ (es : List (DieInfo × DebugAddressRange)) (st st' : RewriterState)
      (die : DieInfo) (r : DebugAddressRange),
      flushEntries st es = some st' → (die, r) ∈ es →
      (die.decl.lowForm ≠ Form.gnuAddrIndex →
        (⟨die.lowPCOffset, leBytes 8 r.lowPC⟩ : Patch) ∈ st'.infoPatches ∧
        (⟨die.highPCOffset,
          if isHighPcFormEightBytes die.decl.highForm
          then leBytes 8 (r.highPC - r.lowPC)
          else leBytes 4 (r.highPC - r.lowPC)⟩ : Patch) ∈ st'.infoPatches) ∧
      (die.decl.lowForm = Form.gnuAddrIndex →
        ∃ d idx, die.dwoId = some d ∧
          getIndexFromAddress st.addrWriter r.lowPC d = some idx ∧
          (d, (⟨die.lowPCOffset,
            ulebBytes (natAbsDiff die.highPCOffset die.lowPCOffset) idx⟩ :
              Patch)) ∈ st'.dwoPatches ∧
          (d, (⟨die.highPCOffset,
            if isHighPcFormEightBytes die.decl.highForm
            then leBytes 8 (r.highPC - r.lowPC)
            else leBytes 4 (r.highPC - r.lowPC)⟩ : Patch)) ∈ st'.dwoPatches)
  | [], _, _, _, _, _, hmem => absurd hmem (by simp)
  | e :: rest, st, st', die, r, h, hmem => by
    simp only [flushEntries] at h
    cases h1 : patchLowHighSt st e.1 e.2 with
    | none => rw [h1] at h; exact absurd h (by simp)
    | some st1 =>
      rw [h1] at h
      rcases List.mem_cons.mp hmem with heq | hrest
      · have hself := patchLowHighSt_self_mem st e.1 e.2 st1 h1
        obtain ⟨_, hi, hd⟩ := flushEntries_mono rest st1 st' h
        have hpair1 : e.1 = die := by rw [← heq]
        have hpair2 : e.2 = r := by rw [← heq]
        rw [hpair1, hpair2] at hself
        exact ⟨fun hne => ⟨hi _ (hself.1 hne).1, hi _ (hself.1 hne).2⟩,
          fun heq2 => by
            obtain ⟨d, idx, h1', h2', h3', h4'⟩ := hself.2 heq2
            exact ⟨d, idx, h1', h2', hd _ h3', hd _ h4'⟩⟩
      · have hrec := flushEntries_mem rest st1 st' die r h hrest
        obtain ⟨ha1, _, _, _, _, _, _⟩ := patchLowHighSt_spec st e.1 e.2 st1 h1
        rw [ha1] at hrec
        exact hrec

theorem flushPendingList_mono :
    ∀ (m : PendingMap) (st st' : RewriterState),
      flushPendingList st m = some st' →
      st'.addrWriter = st.addrWriter ∧
      (∀ p ∈ st.infoPatches, p ∈ st'.infoPatches) ∧
      (∀ q ∈ st.dwoPatches, q ∈ st'.dwoPatches)
  | [], st, st', h => by
    simp only [flushPendingList, Option.some.injEq] at h
    subst h
    exact ⟨rfl, fun p hp => hp, fun q hq => hq⟩
  | kv :: rest, st, st', h => by
    simp only [flushPendingList] at h
    cases h1 : flushEntries st kv.2 with
    | none => rw [h1] at h; exact absurd h (by simp)
    | some st1 =>
      rw [h1] at h
      obtain ⟨ha, hi, hd⟩ := flushPendingList_mono rest st1 st' h
      obtain ⟨ha1, hi1, hd1⟩ := flushEntries_mono kv.2 st st1 h1
      exact ⟨ha.trans ha1, fun p hp => hi p (hi1 p hp),
        fun q hq => hd q (hd1 q hq)⟩

theorem flushPendingList_mem :
    ∀ (m : PendingMap) (st st' : RewriterState) (decl : AbbrevDecl)
      (es : List (DieInfo × DebugAddressRange)) (die : DieInfo)
      (r : DebugAddressRange),
      flushPendingList st m = some st' → (decl, es) ∈ m → (die, r) ∈ es →
      (die.decl.lowForm ≠ Form.gnuAddrIndex →
        (⟨die.lowPCOffset, leBytes 8 r.lowPC⟩ : Patch) ∈ st'.infoPatches ∧
        (⟨die.highPCOffset,
          if isHighPcFormEightBytes die.decl.highForm
          then leBytes 8 (r.highPC - r.lowPC)
          else leBytes 4 (r.highPC - r.lowPC)⟩ : Patch) ∈ st'.infoPatches) ∧
      (die.decl.lowForm = Form.gnuAddrIndex →
        ∃ d idx, die.dwoId = some d ∧
          getIndexFromAddress st.addrWriter r.lowPC d = some idx ∧
          (d, (⟨die.lowPCOffset,
            ulebBytes (natAbsDiff die.highPCOffset die.lowPCOffset) idx⟩ :
              Patch)) ∈ st'.dwoPatches ∧
          (d, (⟨die.highPCOffset,
            if isHighPcFormEightBytes die.decl.highForm
            then leBytes 8 (r.highPC - r.lowPC)
            else leBytes 4 (r.highPC - r.lowPC)⟩ : Patch)) ∈ st'.dwoPatches)
  | [], _, _, _, _, _, _, _, hmem, _ => absurd hmem (by simp)
  | kv :: rest, st, st', decl, es, die, r, h, hmem, he => by
    simp only [flushPendingList] at h
    cases h1 : flushEntries st kv.2 with
    | none => rw [h1] at h; exact absurd h (by simp)
    | some st1 =>
      rw [h1] at h
      rcases List.mem_cons.mp hmem with heq | hrest
      · have hes : (die, r) ∈ kv.2 := by rw [← heq]; exact he
        have hself := flushEntries_mem kv.2 st st1 die r h1 hes
        obtain ⟨_, hi, hd⟩ := flushPendingList_mono rest st1 st' h
        exact ⟨fun hne => ⟨hi _ (hself.1 hne).1, hi _ (hself.1 hne).2⟩,
          fun heq2 => by
            obtain ⟨d, idx, h1', h2', h3', h4'⟩ := hself.2 heq2
            exact ⟨d, idx, h1', h2', hd _ h3', hd _ h4'⟩⟩
      · have hrec := flushPendingList_mem rest st1 st' decl es die r h hrest he
        obtain ⟨ha1, _, _⟩ := flushEntries_mono kv.2 st st1 h1
        rw [ha1] at hrec
        exact hrec

/-- C2: at end-of-run, every Pending Range Entry still in the pending
map (its abbreviation declaration was never converted) is flushed by
`flushPendingRanges` patching that DIE's low-pc and high-pc fields in
place with its single retained range: low-pc receives the range's low
address as an 8-byte little-endian patch (or, for split units using an
address-indexed low-pc, the address-table index of the low address as a
padded ULEB in the split unit's patcher), and high-pc receives
`high - low`, with 8-byte width for the 8-byte high-pc forms and 4-byte
width otherwise. -/
theorem flushPendingRanges_patches_low_high (st st' : RewriterState)
    (decl : AbbrevDecl) (es : List (DieInfo × DebugAddressRange))
    (die : DieInfo) (r : DebugAddressRange)
    (hdecl : (decl, es) ∈ st.pending) (he : (die, r) ∈ es)
    (_hnc : decl ∉ st.converted)
    (h : flushPendingRangesSt st = some st') :
    (die.decl.lowForm ≠ Form.gnuAddrIndex →
      (⟨die.lowPCOffset, leBytes 8 r.lowPC⟩ : Patch) ∈ st'.infoPatches ∧
      (⟨die.highPCOffset,
        if isHighPcFormEightBytes die.decl.highForm
        then leBytes 8 (r.highPC - r.lowPC)
        else leBytes 4 (r.highPC - r.lowPC)⟩ : Patch) ∈ st'.infoPatches) ∧
    (die.decl.lowForm = Form.gnuAddrIndex →
      ∃ d idx, die.dwoId = some d ∧
        getIndexFromAddress st.addrWriter r.lowPC d = some idx ∧
        (d, (⟨die.lowPCOffset,
          ulebBytes (natAbsDiff die.highPCOffset die.lowPCOffset) idx⟩ :
            Patch)) ∈ st'.dwoPatches ∧
        (d, (⟨die.highPCOffset,
          if isHighPcFormEightBytes die.decl.highForm
          then leBytes 8 (r.highPC - r.lowPC)
          else leBytes 4 (r.highPC - r.lowPC)⟩ : Patch)) ∈ st'.dwoPatches) := by
  unfold flushPendingRangesSt at h
  obtain ⟨stf, hf, hst'⟩ := Option.map_eq_some'.mp h
  have := flushPendingList_mem st.pending st stf decl es die r hf hdecl he
  subst hst'
  exact this

/-- Witness for `flushPendingRanges_patches_low_high`. -/
theorem flushPendingRanges_patches_low_high_witness :
    ((sampleDecl, [(sampleDie, (⟨4, 10⟩ : DebugAddressRange))]) ∈
      ({ initState with
        pending := [(sampleDecl, [(sampleDie, ⟨4, 10⟩)])] } :
          RewriterState).pending) ∧
    (sampleDecl ∉ ({ initState with
        pending := [(sampleDecl, [(sampleDie, ⟨4, 10⟩)])] } :
          RewriterState).converted) ∧
    flushPendingRangesSt { initState with
        pending := [(sampleDecl, [(sampleDie, ⟨4, 10⟩)])] } =
      some { initState with infoPatches :=
        [⟨sampleDie.lowPCOffset, leBytes 8 4⟩,
         ⟨sampleDie.highPCOffset, leBytes 8 6⟩] } ∧
    (sampleDie.decl.lowForm ≠ Form.gnuAddrIndex →
      (⟨sampleDie.lowPCOffset, leBytes 8 (4 : Nat)⟩ : Patch) ∈
        ({ initState with infoPatches :=
          [⟨sampleDie.lowPCOffset, leBytes 8 4⟩,
           ⟨sampleDie.highPCOffset, leBytes 8 6⟩] } :
            RewriterState).infoPatches ∧
      (⟨sampleDie.highPCOffset,
        if isHighPcFormEightBytes sampleDie.decl.highForm
        then leBytes 8 ((10 : Nat) - 4) else leBytes 4 ((10 : Nat) - 4)⟩ :
          Patch) ∈
        ({ initState with infoPatches :=
          [⟨sampleDie.lowPCOffset, leBytes 8 4⟩,
           ⟨sampleDie.highPCOffset, leBytes 8 6⟩] } :
            RewriterState).infoPatches) := by
  refine ⟨by decide, by decide, by decide, ?_⟩
  have h := flushPendingRanges_patches_low_high
    { initState with pending := [(sampleDecl, [(sampleDie, ⟨4, 10⟩)])] }
    { initState with infoPatches :=
        [⟨sampleDie.lowPCOffset, leBytes 8 4⟩,
         ⟨sampleDie.highPCOffset, leBytes 8 6⟩] }
    sampleDecl [(sampleDie, ⟨4, 10⟩)] sampleDie ⟨4, 10⟩
    (by decide) (by decide) (by decide) (by decide)
  exact h.1

theorem convertToRangesDiePatches_eq (die : DieInfo) (off base nb : Nat)
    (rangesBase : Option Nat)
    (hnb : numBytesToFill die.decl.highForm = some nb) :
    convertToRangesDiePatches die off rangesBase base =
      some (convertToRangesDiePatchesCore die nb off rangesBase base) := by
  unfold convertToRangesDiePatches
  rw [hnb]

theorem convertToRangesDiePatches_isSome (die : DieInfo) (off base nb : Nat)
    (rangesBase : Option Nat)
    (hnb : numBytesToFill die.decl.highForm = some nb) :
    ∃ ps, convertToRangesDiePatches die off rangesBase base = some ps :=
  ⟨_, convertToRangesDiePatches_eq die off base nb rangesBase hnb⟩

theorem convertToRangesDiePatches_final_mem (die : DieInfo)
    (off base nb : Nat) (ps : List Patch)
    (hlf : die.decl.lowForm ≠ Form.gnuAddrIndex)
    (hnb : numBytesToFill die.decl.highForm = some nb)
    (h : convertToRangesDiePatches die off none base = some ps) :
    (⟨die.highPCOffset + nb - 8, leBytes 4 off⟩ : Patch) ∈ ps := by
  rw [convertToRangesDiePatches_eq die off base nb none hnb] at h
  simp only [Option.some.injEq] at h
  subst h
  unfold convertToRangesDiePatchesCore
  rw [if_neg hlf]
  by_cases h12 : nb = 12
  · rw [if_pos h12]; simp
  · rw [if_neg h12]; simp

theorem convertToRangesList_spec (st : RewriterState) (die : DieInfo)
    (rs : List DebugAddressRange) (st' : RewriterState)
    (h : convertToRangesList st die rs = some st') :
    st'.converted = st.converted ∧ st'.pending = st.pending ∧
    st'.abbrevPatches = st.abbrevPatches ∧
    st'.addrWriter = st.addrWriter ∧
    st'.patcherRangeBase = st.patcherRangeBase ∧
    st'.dwoPatches = st.dwoPatches ∧
    (∀ p ∈ st.infoPatches, p ∈ st'.infoPatches) ∧
    (∀ e ∈ st.ranges.stored, e ∈ st'.ranges.stored) := by
  unfold convertToRangesList at h
  by_cases hrs : rs.isEmpty
  · rw [if_pos hrs] at h
    simp only [] at h
    cases hcp : convertToRangesDiePatches die emptyRangesOffset none
        st.patcherRangeBase with
    | none => rw [hcp] at h; exact absurd h (by simp)
    | some ps =>
      rw [hcp] at h
      simp only [Option.some.injEq] at h
      subst h
      exact ⟨rfl, rfl, rfl, rfl, rfl, rfl, fun p hp => by simp [hp],
        fun e hst => hst⟩
  · rw [if_neg hrs] at h
    simp only [] at h
    cases hcp : convertToRangesDiePatches die
        (addRanges st.ranges rs).1 none st.patcherRangeBase with
    | none => rw [hcp] at h; exact absurd h (by simp)
    | some ps =>
      rw [hcp] at h
      simp only [Option.some.injEq] at h
      subst h
      refine ⟨rfl, rfl, rfl, rfl, rfl, rfl, fun p hp => by simp [hp],
        fun e hst => ?_⟩
      simp [addRanges, hst]

theorem convertToRangesList_isSome (st : RewriterState) (die : DieInfo)
    (rs : List DebugAddressRange) (nb : Nat)
    (hnb : numBytesToFill die.decl.highForm = some nb) :
    ∃ st', convertToRangesList st die rs = some st' := by
  unfold convertToRangesList
  by_cases hrs : rs.isEmpty
  · rw [if_pos hrs]
    obtain ⟨ps, hps⟩ := convertToRangesDiePatches_isSome die
      emptyRangesOffset st.patcherRangeBase nb none hnb
    simp only []
    rw [hps]
    exact ⟨_, rfl⟩
  · rw [if_neg hrs]
    obtain ⟨ps, hps⟩ := convertToRangesDiePatches_isSome die
      (addRanges st.ranges rs).1 st.patcherRangeBase nb none hnb
    simp only []
    rw [hps]
    exact ⟨_, rfl⟩

theorem convertToRangesList_nonempty (st : RewriterState) (die : DieInfo)
    (rs : List DebugAddressRange) (st' : RewriterState) (nb : Nat)
    (hrs : rs.isEmpty = false)
    (hlf : die.decl.lowForm ≠ Form.gnuAddrIndex)
    (hnb : numBytesToFill die.decl.highForm = some nb)
    (h : convertToRangesList st die rs = some st') :
    (st.ranges.sectionOffset, rs) ∈ st'.ranges.stored ∧
    (⟨die.highPCOffset + nb - 8,
      leBytes 4 st.ranges.sectionOffset⟩ : Patch) ∈ st'.infoPatches := by
  unfold convertToRangesList at h
  simp only [hrs, Bool.false_eq_true, if_false] at h
  cases hcp : convertToRangesDiePatches die
      (addRanges st.ranges rs).1 none st.patcherRangeBase with
  | none => rw [hcp] at h; exact absurd h (by simp)
  | some ps =>
    rw [hcp] at h
    simp only [Option.some.injEq] at h
    subst h
    constructor
    · simp [addRanges]
    · have := convertToRangesDiePatches_final_mem die
        (addRanges st.ranges rs).1 st.patcherRangeBase nb ps hlf hnb hcp
      simp only [addRanges] at this ⊢
      simp [this]

theorem flushConvertEntries_single (st : RewriterState) (die : DieInfo)
    (r : DebugAddressRange) (st' : RewriterState)
    (h : convertToRangesList st die [r] = some st') :
    flushConvertEntries st [(die, r)] = some st' := by
  simp only [flushConvertEntries, h]

theorem convertPendingSt_eq (st : RewriterState) (decl : AbbrevDecl)
    (stA : RewriterState) (hnc : decl ∉ st.converted)
    (hflush : flushConvertEntries { st with abbrevPatches :=
        (convertAbbrevPatches st.abbrevPatches decl none) }
      (entriesOf st.pending decl) = some stA) :
    convertPendingSt st decl =
      some { stA with pending := pendingErase stA.pending decl,
                      converted := decl :: stA.converted } := by
  unfold convertPendingSt
  rw [if_neg hnc]
  simp only []
  rw [hflush]

/-- C1: two subprogram DIEs sharing one abbreviation declaration, where
the first has exactly one output range (deferred as pending) and the
second has more than one (forcing conversion): after processing both,
each DIE's high-pc field has been patched to reference a ranges-section
offset at which a range list was stored, the declaration's attribute
pair has been rewritten to `DW_AT_ranges` exactly once, and a further
conversion request for the same declaration is a no-op. -/
theorem shared_abbrev_pending_conversion_once (st0 : RewriterState)
    (d1 d2 : DieInfo) (r1 : DebugAddressRange)
    (fr2 : List DebugAddressRange) (nb : Nat)
    (hshare : d2.decl = d1.decl)
    (hlow : d1.decl.lowForm = Form.addr)
    (hnb : numBytesToFill d1.decl.highForm = some nb)
    (huntouched : d1.decl ∉ st0.converted)
    (hfresh : pendingLookup st0.pending d1.decl = none)
    (hcount : rangesConversionCount st0.abbrevPatches d1.decl.declId = 0)
    (hfr2 : 1 < fr2.length)
    (st1 st2 : RewriterState)
    (h1 : processSubprogramLowHigh st0 d1 [r1] = some st1)
    (h2 : processSubprogramLowHigh st1 d2 fr2 = some st2) :
    (∃ off rs, (off, rs) ∈ st2.ranges.stored ∧
      (⟨d1.highPCOffset + nb - 8, leBytes 4 off⟩ : Patch) ∈
        st2.infoPatches) ∧
    (∃ off rs, (off, rs) ∈ st2.ranges.stored ∧
      (⟨d2.highPCOffset + nb - 8, leBytes 4 off⟩ : Patch) ∈
        st2.infoPatches) ∧
    rangesConversionCount st2.abbrevPatches d1.decl.declId = 1 ∧
    convertPendingSt st2 d1.decl = some st2 := by
  have hlowne : d1.decl.lowForm ≠ Form.gnuAddrIndex := by
    rw [hlow]; intro hc; exact absurd hc (by decide)
  -- Step 1: the first DIE is deferred as pending.
  have e1 : processSubprogramLowHigh st0 d1 [r1] =
      some { st0 with pending := pendingAdd st0.pending d1.decl (d1, r1) } := by
    simp [processSubprogramLowHigh, addToPendingRangesSt, huntouched, hlow]
  rw [e1] at h1
  simp only [Option.some.injEq] at h1
  subst h1
  -- Step 2: the second DIE forces the conversion of the declaration.
  obtain ⟨stA, hA⟩ := convertToRangesList_isSome
    { st0 with
      pending := pendingAdd st0.pending d1.decl (d1, r1),
      abbrevPatches :=
        (convertAbbrevPatches st0.abbrevPatches d1.decl none) }
    d1 [r1] nb hnb
  have hentries : entriesOf (pendingAdd st0.pending d1.decl (d1, r1))
      d1.decl = [(d1, r1)] := by
    unfold entriesOf
    rw [pendingLookup_add_self]
    simp [entriesOf, hfresh]
  have hflush : flushConvertEntries
      { ({ st0 with
          pending := pendingAdd st0.pending d1.decl (d1, r1) } :
            RewriterState) with abbrevPatches :=
        (convertAbbrevPatches
          ({ st0 with
            pending := pendingAdd st0.pending d1.decl (d1, r1) } :
              RewriterState).abbrevPatches d1.decl none) }
      (entriesOf
        ({ st0 with
          pending := pendingAdd st0.pending d1.decl (d1, r1) } :
            RewriterState).pending d1.decl) = some stA := by
    rw [show entriesOf
        ({ st0 with
          pending := pendingAdd st0.pending d1.decl (d1, r1) } :
            RewriterState).pending d1.decl = [(d1, r1)] from hentries]
    exact flushConvertEntries_single _ d1 r1 stA hA
  have eCP := convertPendingSt_eq
    { st0 with pending := pendingAdd st0.pending d1.decl (d1, r1) }
    d1.decl stA huntouched hflush
  simp only [processSubprogramLowHigh, if_pos hfr2] at h2
  rw [hshare, eCP] at h2
  simp only [] at h2
  -- Step 3: collect the facts about the final state.
  have hspecA := convertToRangesList_spec _ d1 [r1] stA hA
  have hmemA := convertToRangesList_nonempty _ d1 [r1] stA nb (by simp)
    hlowne hnb hA
  have hspec2 := convertToRangesList_spec _ d2 fr2 st2 h2
  have hmem2 := convertToRangesList_nonempty _ d2 fr2 st2 nb
    (by cases fr2 with
        | nil => simp at hfr2
        | cons a l => simp)
    (by rw [hshare]; exact hlowne) (by rw [hshare]; exact hnb) h2
  obtain ⟨hc2, hp2, hab2, haw2, hprb2, hdw2, hinfo2, hstored2⟩ := hspec2
  refine ⟨⟨_, [r1], hstored2 _ hmemA.1, hinfo2 _ hmemA.2⟩,
    ⟨_, fr2, hmem2.1, hmem2.2⟩, ?_, ?_⟩
  · have habA : stA.abbrevPatches =
        convertAbbrevPatches st0.abbrevPatches d1.decl none :=
      hspecA.2.2.1
    have hab : st2.abbrevPatches =
        convertAbbrevPatches st0.abbrevPatches d1.decl none := by
      rw [hab2]; exact habA
    rw [hab, rangesConversionCount_convert, hcount]
  · have hmemc : d1.decl ∈ st2.converted := by
      rw [hc2]
      exact List.mem_cons_self _ _
    unfold convertPendingSt
    rw [if_pos hmemc]

/-- Witness for `shared_abbrev_pending_conversion_once`, at the initial
state with `sampleDie` (one range, deferred) and `sampleDie2` (three
ranges, forcing conversion) sharing `sampleDecl`. -/
theorem shared_abbrev_pending_conversion_once_witness :
    processSubprogramLowHigh initState sampleDie [⟨4, 10⟩] =
      some witnessState1 ∧
    processSubprogramLowHigh witnessState1 sampleDie2 witnessRanges2 =
      some witnessState2 ∧
    ((∃ off rs, (off, rs) ∈ witnessState2.ranges.stored ∧
      (⟨sampleDie.highPCOffset + 12 - 8, leBytes 4 off⟩ : Patch) ∈
        witnessState2.infoPatches) ∧
    (∃ off rs, (off, rs) ∈ witnessState2.ranges.stored ∧
      (⟨sampleDie2.highPCOffset + 12 - 8, leBytes 4 off⟩ : Patch) ∈
        witnessState2.infoPatches) ∧
    rangesConversionCount witnessState2.abbrevPatches
      sampleDie.decl.declId = 1 ∧
    convertPendingSt witnessState2 sampleDie.decl = some witnessState2) :=
  ⟨by decide, by decide,
   shared_abbrev_pending_conversion_once initState sampleDie sampleDie2
     ⟨4, 10⟩ witnessRanges2 12 rfl rfl rfl (by decide) rfl (by decide)
     (by decide) witnessState1 witnessState2 (by decide) (by decide)⟩

/-! ### `.gdb_index` regeneration lemmas -/

theorem length_gdbAddrRangesBytes :
    ∀ (rs : List DebugAddressRange) (idx : Nat),
      (rs.foldr (fun r acc2 => leBytes 8 r.lowPC ++ leBytes 8 r.highPC ++
        leBytes 4 idx ++ acc2) []).length = 20 * rs.length
  | [], _ => rfl
  | r :: rs, idx => by
    simp only [List.foldr_cons, List.length_append, length_leBytes,
      List.length_cons, length_gdbAddrRangesBytes rs idx]
    ring

theorem length_gdbAddrTableBytes :
    ∀ (crs : List (Nat × List DebugAddressRange)) (offs : List Nat),
      (gdbAddrTableBytes crs offs).length = gdbNewAddressTableSize crs
  | [], _ => rfl
  | p :: crs, offs => by
    simp only [gdbAddrTableBytes, gdbNewAddressTableSize, List.foldr_cons,
      List.length_append]
    rw [show (List.foldr (fun p acc =>
        (p.2.foldr (fun r acc2 => leBytes 8 r.lowPC ++ leBytes 8 r.highPC ++
          leBytes 4 (offsetToIndex offs p.1) ++ acc2) []) ++ acc) [] crs) =
        gdbAddrTableBytes crs offs from rfl,
      length_gdbAddrTableBytes crs offs,
      length_gdbAddrRangesBytes p.2 (offsetToIndex offs p.1),
      show (List.foldr (fun p acc => 20 * p.2.length + acc) 0 crs) =
        gdbNewAddressTableSize crs from rfl]

/-- C3: `.gdb_index` regeneration preserves the size invariant
`new_size = old_size + (new_address_table_size - old_address_table_size)`
(stated additively to avoid truncated subtraction), regenerates the
address table as one 20-byte entry (8-byte low, 8-byte high, 4-byte CU
index) per retained output range per compile unit, copies every byte
after the address table verbatim, and in the header keeps the version
and the CU-list, types-CU-list and address-table offset fields at their
original values while shifting the symbol-table and constant-pool
offset fields by exactly the size delta. -/
theorem updateGdbIndexSection_layout (inp : GdbIndexInput) (out : List Nat)
    (version culo cuty ato symo cpo : Nat)
    (hver : read32le inp.contents 0 = version)
    (hculo : read32le inp.contents 4 = culo)
    (hcuty : read32le inp.contents 8 = cuty)
    (hato : read32le inp.contents 12 = ato)
    (hsymo : read32le inp.contents 16 = symo)
    (hcpo : read32le inp.contents 20 = cpo)
    (hord1 : culo ≤ cuty) (hord2 : cuty ≤ ato) (hord3 : ato ≤ symo)
    (hlen : 24 + (symo - culo) ≤ inp.contents.length)
    (hsome : updateGdbIndexSection inp = some out) :
    out.length + (symo - ato) =
      inp.contents.length + gdbNewAddressTableSize inp.cuRanges ∧
    out.take 24 = leBytes 4 version ++ leBytes 4 culo ++ leBytes 4 cuty ++
      leBytes 4 ato ++
      leBytes 4 (symo + gdbNewAddressTableSize inp.cuRanges -
        (symo - ato)) ++
      leBytes 4 (cpo + gdbNewAddressTableSize inp.cuRanges -
        (symo - ato)) ∧
    (out.drop 24).take (ato - culo) =
      (inp.contents.drop 24).take (ato - culo) ∧
    (out.drop (24 + (ato - culo))).take
        (gdbNewAddressTableSize inp.cuRanges) =
      gdbAddrTableBytes inp.cuRanges inp.cuOffsets ∧
    (gdbAddrTableBytes inp.cuRanges inp.cuOffsets).length =
      gdbNewAddressTableSize inp.cuRanges ∧
    out.drop (24 + (ato - culo) + gdbNewAddressTableSize inp.cuRanges) =
      inp.contents.drop (24 + (symo - culo)) := by
  unfold updateGdbIndexSection at hsome
  simp only [] at hsome
  rw [hver, hculo, hcuty, hato, hsymo, hcpo] at hsome
  split_ifs at hsome with hv hn hm
  rw [Option.some.injEq] at hsome
  subst hsome
  have hN : cuty - culo = inp.cuOffsets.length * 16 := by
    exact not_not.mp hn
  have hC : ((inp.contents.drop 24).take (ato - culo)).length =
      ato - culo := by
    rw [List.length_take, List.length_drop]
    omega
  have hA := length_gdbAddrTableBytes inp.cuRanges inp.cuOffsets
  refine ⟨?_, ?_, ?_, ?_, hA, ?_⟩
  · simp only [List.length_append, length_leBytes, hC, hA, List.length_drop]
    omega
  · rw [show (leBytes 4 version ++ leBytes 4 culo ++ leBytes 4 cuty ++
        leBytes 4 ato ++ leBytes 4 (symo +
          gdbNewAddressTableSize inp.cuRanges - (symo - ato)) ++
        leBytes 4 (cpo + gdbNewAddressTableSize inp.cuRanges -
          (symo - ato)) ++ (inp.contents.drop 24).take (ato - culo) ++
        gdbAddrTableBytes inp.cuRanges inp.cuOffsets ++
        inp.contents.drop (24 + inp.cuOffsets.length * 16 +
          (symo - cuty))) =
        (leBytes 4 version ++ leBytes 4 culo ++ leBytes 4 cuty ++
          leBytes 4 ato ++ leBytes 4 (symo +
            gdbNewAddressTableSize inp.cuRanges - (symo - ato)) ++
          leBytes 4 (cpo + gdbNewAddressTableSize inp.cuRanges -
            (symo - ato))) ++
        ((inp.contents.drop 24).take (ato - culo) ++
          (gdbAddrTableBytes inp.cuRanges inp.cuOffsets ++
           inp.contents.drop (24 + inp.cuOffsets.length * 16 +
             (symo - cuty)))) from by simp [List.append_assoc]]
    rw [List.take_left' (by
      simp only [List.length_append, length_leBytes])]
  · rw [show (leBytes 4 version ++ leBytes 4 culo ++ leBytes 4 cuty ++
        leBytes 4 ato ++ leBytes 4 (symo +
          gdbNewAddressTableSize inp.cuRanges - (symo - ato)) ++
        leBytes 4 (cpo + gdbNewAddressTableSize inp.cuRanges -
          (symo - ato)) ++ (inp.contents.drop 24).take (ato - culo) ++
        gdbAddrTableBytes inp.cuRanges inp.cuOffsets ++
        inp.contents.drop (24 + inp.cuOffsets.length * 16 +
          (symo - cuty))) =
        (leBytes 4 version ++ leBytes 4 culo ++ leBytes 4 cuty ++
          leBytes 4 ato ++ leBytes 4 (symo +
            gdbNewAddressTableSize inp.cuRanges - (symo - ato)) ++
          leBytes 4 (cpo + gdbNewAddressTableSize inp.cuRanges -
            (symo - ato))) ++
        ((inp.contents.drop 24).take (ato - culo) ++
          (gdbAddrTableBytes inp.cuRanges inp.cuOffsets ++
           inp.contents.drop (24 + inp.cuOffsets.length * 16 +
             (symo - cuty)))) from by simp [List.append_assoc]]
    rw [List.drop_left' (by
      simp only [List.length_append, length_leBytes])]
    rw [List.take_left' hC]
  · rw [show (leBytes 4 version ++ leBytes 4 culo ++ leBytes 4 cuty ++
        leBytes 4 ato ++ leBytes 4 (symo +
          gdbNewAddressTableSize inp.cuRanges - (symo - ato)) ++
        leBytes 4 (cpo + gdbNewAddressTableSize inp.cuRanges -
          (symo - ato)) ++ (inp.contents.drop 24).take (ato - culo) ++
        gdbAddrTableBytes inp.cuRanges inp.cuOffsets ++
        inp.contents.drop (24 + inp.cuOffsets.length * 16 +
          (symo - cuty))) =
        ((leBytes 4 version ++ leBytes 4 culo ++ leBytes 4 cuty ++
          leBytes 4 ato ++ leBytes 4 (symo +
            gdbNewAddressTableSize inp.cuRanges - (symo - ato)) ++
          leBytes 4 (cpo + gdbNewAddressTableSize inp.cuRanges -
            (symo - ato))) ++ (inp.contents.drop 24).take (ato - culo)) ++
        (gdbAddrTableBytes inp.cuRanges inp.cuOffsets ++
         inp.contents.drop (24 + inp.cuOffsets.length * 16 +
           (symo - cuty))) from by simp [List.append_assoc]]
    rw [List.drop_left' (by
      simp only [List.length_append, length_leBytes, hC])]
    rw [List.take_left' hA]
  · rw [show (leBytes 4 version ++ leBytes 4 culo ++ leBytes 4 cuty ++
        leBytes 4 ato ++ leBytes 4 (symo +
          gdbNewAddressTableSize inp.cuRanges - (symo - ato)) ++
        leBytes 4 (cpo + gdbNewAddressTableSize inp.cuRanges -
          (symo - ato)) ++ (inp.contents.drop 24).take (ato - culo) ++
        gdbAddrTableBytes inp.cuRanges inp.cuOffsets ++
        inp.contents.drop (24 + inp.cuOffsets.length * 16 +
          (symo - cuty))) =
        ((leBytes 4 version ++ leBytes 4 culo ++ leBytes 4 cuty ++
          leBytes 4 ato ++ leBytes 4 (symo +
            gdbNewAddressTableSize inp.cuRanges - (symo - ato)) ++
          leBytes 4 (cpo + gdbNewAddressTableSize inp.cuRanges -
            (symo - ato))) ++ (inp.contents.drop 24).take (ato - culo) ++
         gdbAddrTableBytes inp.cuRanges inp.cuOffsets) ++
        inp.contents.drop (24 + inp.cuOffsets.length * 16 +
          (symo - cuty)) from by simp [List.append_assoc]]
    rw [List.drop_left' (by
      simp only [List.length_append, length_leBytes, hC, hA])]
    rw [show 24 + inp.cuOffsets.length * 16 + (symo - cuty) =
      24 + (symo - culo) from by omega]

/-- Witness for `updateGdbIndexSection_layout` at `gdbSampleInput`
(one compile unit, two retained ranges, delta +20). -/
theorem updateGdbIndexSection_layout_witness :
    updateGdbIndexSection gdbSampleInput = some gdbSampleOutput ∧
    (gdbSampleOutput.length + (36 - 16) =
      gdbSampleInput.contents.length +
        gdbNewAddressTableSize gdbSampleInput.cuRanges ∧
    gdbSampleOutput.take 24 = leBytes 4 7 ++ leBytes 4 0 ++ leBytes 4 16 ++
      leBytes 4 16 ++
      leBytes 4 (36 + gdbNewAddressTableSize gdbSampleInput.cuRanges -
        (36 - 16)) ++
      leBytes 4 (36 + gdbNewAddressTableSize gdbSampleInput.cuRanges -
        (36 - 16)) ∧
    (gdbSampleOutput.drop 24).take (16 - 0) =
      (gdbSampleInput.contents.drop 24).take (16 - 0) ∧
    (gdbSampleOutput.drop (24 + (16 - 0))).take
        (gdbNewAddressTableSize gdbSampleInput.cuRanges) =
      gdbAddrTableBytes gdbSampleInput.cuRanges gdbSampleInput.cuOffsets ∧
    (gdbAddrTableBytes gdbSampleInput.cuRanges
        gdbSampleInput.cuOffsets).length =
      gdbNewAddressTableSize gdbSampleInput.cuRanges ∧
    gdbSampleOutput.drop (24 + (16 - 0) +
        gdbNewAddressTableSize gdbSampleInput.cuRanges) =
      gdbSampleInput.contents.drop (24 + (36 - 0))) :=
  ⟨by decide,
   updateGdbIndexSection_layout gdbSampleInput gdbSampleOutput 7 0 16 16 36 36
     (by decide) (by decide) (by decide) (by decide) (by decide) (by decide)
     (by decide) (by decide) (by decide) (by decide) (by decide)⟩
